import Mathlib

/-!
# packer-plugin-arm-image: loop-device mapping step and image opener

A shallow embedding of `pkg/builder/step_map_image.go` (`stepMapImage.Run`,
`stepMapImage.Cleanup`) and of `pkg/image/image.go` (`imageOpener.Open` and its
helpers), followed by theorems about them.

Conventions of the embedding.

* A Go `string` is a `List Char` (`GoString`): the text is taken to be valid
  UTF-8, so that the byte-wise operations of Go (`<`, `HasPrefix`, `Split` on an
  ASCII separator, the ASCII classes of `strconv` and `regexp`) agree with the
  same operations on code points.
* Go `int` is 64 bits wide (`intSize = 64`).
* External tools are an explicit `World`: what `losetup`, every `lsblk`
  invocation and the `/dev/mapper/` listing return. Everything the step does to
  the outside is recorded, in order, in a trace of `Event`s.
* A run-time panic of Go (index out of range) is the action `none`.
-/

namespace ArmImage

/-- A Go string, as its sequence of code points. -/
abbrev GoString := List Char

/-! ## The Go standard library functions the step calls -/

namespace Go

/-- Go `unicode.IsSpace`: the Latin-1 spaces and the code points with the
White_Space property. -/
def isSpace (c : Char) : Bool :=
  let n := c.toNat
  n == 0x09 || n == 0x0A || n == 0x0B || n == 0x0C || n == 0x0D || n == 0x20 ||
  n == 0x85 || n == 0xA0 || n == 0x1680 || (0x2000 ≤ n && n ≤ 0x200A) ||
  n == 0x2028 || n == 0x2029 || n == 0x202F || n == 0x205F || n == 0x3000

/-- Go `strings.TrimSpace`: all leading and trailing white space removed. -/
def TrimSpace (s : GoString) : GoString :=
  ((s.dropWhile isSpace).reverse.dropWhile isSpace).reverse

/-- Go `strings.Split(s, sep)` for a one-character separator: the pieces between
the separators, `n + 1` pieces for `n` separators (one empty piece for the
empty string). -/
def Split (s : GoString) (sep : Char) : List GoString :=
  match s with
  | [] => [[]]
  | c :: cs =>
    if c = sep then [] :: Split cs sep
    else
      match Split cs sep with
      | [] => [[c]]
      | piece :: rest => (c :: piece) :: rest

/-- The loop of Go `strings.Fields`: `cur` is the field being read, reversed. -/
def fieldsFrom (s : GoString) (cur : GoString) : List GoString :=
  match s with
  | [] => if cur.isEmpty then [] else [cur.reverse]
  | c :: cs =>
    if isSpace c then
      if cur.isEmpty then fieldsFrom cs [] else cur.reverse :: fieldsFrom cs []
    else fieldsFrom cs (c :: cur)

/-- Go `strings.Fields`: the maximal runs of characters that are not white
space. -/
def Fields (s : GoString) : List GoString := fieldsFrom s []

/-- Go `strings.HasPrefix`. -/
def HasPrefix (s pre : GoString) : Bool := pre.isPrefixOf s

/-- Go `strings.TrimPrefix`: `s` without the leading `pre`, or `s` itself when it
does not start with `pre`. -/
def TrimPrefix (s pre : GoString) : GoString :=
  if HasPrefix s pre then s.drop pre.length else s

/-- Go `strings.Contains`: `sub` occurs somewhere in `s`. -/
def Contains (s sub : GoString) : Bool :=
  match s with
  | [] => sub.isEmpty
  | c :: cs => sub.isPrefixOf (c :: cs) || Contains cs sub

/-- Go's `<` on strings: lexicographic, a proper prefix first. -/
def strLess : GoString → GoString → Bool
  | [], [] => false
  | [], _ :: _ => true
  | _ :: _, [] => false
  | a :: as, b :: bs =>
    if a.toNat < b.toNat then true
    else if b.toNat < a.toNat then false
    else strLess as bs

/-- Go `len(s)`: the number of bytes of the UTF-8 encoding. -/
def len (s : GoString) : Nat := (s.map Char.utf8Size).sum

/-- The ASCII digits `'0' .. '9'`. -/
def isDigit (c : Char) : Bool := 48 ≤ c.toNat && c.toNat ≤ 57

/-- The value of an ASCII digit. -/
def digitVal (c : Char) : Nat := c.toNat - 48

/-- The errors of `strconv`: `ErrSyntax` and `ErrRange`. -/
inductive NumError
  | ErrSyntax
  | ErrRange
  deriving DecidableEq, Repr

/-- The width of Go `int` and `uint`. -/
def intSize : Nat := 64

/-- The largest `uint64`. -/
def maxUint64 : Nat := 2 ^ 64 - 1

/-- The digit loop of `strconv.ParseUint(s, 10, 64)`, `n` the value read so
far, in `uint64` arithmetic: a character that is not a digit is a syntax error
with value 0, an overflow is a range error with value `maxUint64`. -/
def parseUintLoop (s : GoString) (n : Nat) : Nat × Option NumError :=
  match s with
  | [] => (n, none)
  | c :: cs =>
    if !isDigit c then (0, some NumError.ErrSyntax)
    else if n ≥ maxUint64 / 10 + 1 then (maxUint64, some NumError.ErrRange)
    else
      let n10 := n * 10 % 2 ^ 64
      let n1 := (n10 + digitVal c) % 2 ^ 64
      if n1 < n10 || n1 > maxUint64 then (maxUint64, some NumError.ErrRange)
      else parseUintLoop cs n1

/-- Go `strconv.ParseUint(s, 10, 64)`. -/
def ParseUint (s : GoString) : Nat × Option NumError :=
  if s.isEmpty then (0, some NumError.ErrSyntax) else parseUintLoop s 0

/-- Go `strconv.ParseInt(s, 10, 0)`: an optional sign, then `ParseUint`; a
value out of the range of `int64` is clamped and reported as a range error. -/
def ParseInt (s : GoString) : Int × Option NumError :=
  match s with
  | [] => (0, some NumError.ErrSyntax)
  | c :: cs =>
    let neg := c == '-'
    let digits := if c == '+' || c == '-' then cs else c :: cs
    let (un, err) := ParseUint digits
    if err == some NumError.ErrSyntax then (0, err)
    else
      let cutoff : Nat := 2 ^ (intSize - 1)
      if !neg && un ≥ cutoff then (((cutoff - 1 : Nat) : Int), some NumError.ErrRange)
      else if neg && un > cutoff then (-(cutoff : Int), some NumError.ErrRange)
      else (if neg then -(un : Int) else (un : Int), none)

/-- The digit loop of the fast path of `strconv.Atoi`; `none` is a syntax
error. -/
def atoiFastLoop (s : GoString) (n : Nat) : Option Nat :=
  match s with
  | [] => some n
  | c :: cs => if !isDigit c then none else atoiFastLoop cs (n * 10 + digitVal c)

/-- Go `strconv.Atoi` with `intSize = 64`: strings of 1 to 18 bytes take the
fast path, all others go through `ParseInt`. The first component is the value
returned beside the error. -/
def Atoi (s : GoString) : Int × Option NumError :=
  if 0 < len s && len s < 19 then
    match s with
    | [] => (0, some NumError.ErrSyntax)
    | c :: cs =>
      let digits := if c == '-' || c == '+' then cs else c :: cs
      if digits.isEmpty then (0, some NumError.ErrSyntax)
      else
        match atoiFastLoop digits 0 with
        | none => (0, some NumError.ErrSyntax)
        | some n => (if c == '-' then -(n : Int) else (n : Int), none)
  else ParseInt s

/-- One pass of the inner loop of Go's `insertionSortLessFunc`: the element `x`
moves left past every predecessor `y` with `less x y`. `sorted` is the part of
the slice before `x`, last element first. -/
def insertBack {α : Type} (less : α → α → Bool) (x : α) (sorted : List α) : List α :=
  match sorted with
  | [] => [x]
  | y :: ys => if less x y then y :: insertBack less x ys else x :: y :: ys

/-- Go `sort.SliceStable`, as the insertion sort it runs on every block of up to
20 elements. On longer slices Go merges the sorted blocks with `symMerge`; the
outcome is this one whenever `less` is a strict weak order on the elements,
because a stable sort then has one possible result, and the comparison of the
mapping step is such an order on every list the step builds. -/
def SliceStable {α : Type} (data : List α) (less : α → α → Bool) : List α :=
  (data.foldl (fun sorted x => insertBack less x sorted) []).reverse

/-- The match of the regular expression `/dev/loop[0-9]+` that starts at the
first character of `s`, if there is one: the literal, then the longest run of
digits, which must not be empty. -/
def loopReMatchHere (s : GoString) : Option GoString :=
  if "/dev/loop".toList.isPrefixOf s then
    let digits := (s.drop 9).takeWhile isDigit
    if digits.isEmpty then none else some ("/dev/loop".toList ++ digits)
  else none

/-- Go `loopRe.Find` for `loopRe = regexp.MustCompile("/dev/loop[0-9]+")`: the
leftmost match, `none` for Go's `nil`. -/
def loopReFind (s : GoString) : Option GoString :=
  match s with
  | [] => none
  | c :: cs =>
    match loopReMatchHere (c :: cs) with
    | some m => some m
    | none => loopReFind cs

end Go

/-! ## `pkg/builder/step_map_image.go` -/

namespace Builder

open Go

/-- What the step does to the outside, in the order it does it. -/
inductive Event
  /-- The call `ui.Message(msg)`. -/
  | uiMessage (msg : GoString)
  /-- The call `ui.Say(msg)`. -/
  | uiSay (msg : GoString)
  /-- The call `ui.Error(msg)`. -/
  | uiError (msg : GoString)
  /-- An `exec.Command(argv...)` run to completion. -/
  | exec (argv : List GoString)
  /-- The call `os.ReadDir(dir)`. -/
  | readDir (dir : GoString)
  /-- The call `time.Sleep` of that many seconds. -/
  | sleep (seconds : Nat)
  /-- The shell command handed to the package's helper `run`. -/
  | run (cmd : GoString)
  deriving DecidableEq, Repr

/-- The dynamic value stored under `ResultKey`, as the type switch of `Cleanup`
tells the cases apart. -/
inductive Value
  /-- Nothing is stored under the key. -/
  | nil
  /-- A `[]string`. -/
  | strings (partitions : List GoString)
  /-- A value of any other type. -/
  | other
  deriving DecidableEq, Repr

/-- The entries of the `multistep.StateBag` the step touches: the string under
`ImageKey` and the value under `ResultKey` (two different keys). -/
structure StateBag where
  /-- The value of `state.Get(s.ImageKey).(string)`. -/
  image : GoString
  /-- The value of `state.Get(s.ResultKey)`. -/
  result : Value
  deriving DecidableEq, Repr

/-- The answers of the external tools during one `Run`. -/
structure World where
  /-- The combined output of `losetup --show -f -P <image>`. -/
  losetupOut : GoString
  /-- The text of the error of that invocation, `none` when `err == nil`. -/
  losetupErr : Option GoString
  /-- The result of the `retries`-th invocation of `lsblk`: its standard output,
  or the text of its error. -/
  lsblk : Nat → Except GoString GoString
  /-- The file names `os.ReadDir("/dev/mapper/")` returns (its error is
  ignored by the step). -/
  mapperFiles : List GoString

/-- The values of `multistep.StepAction` the step returns. -/
inductive StepAction
  | ActionContinue
  | ActionHalt
  deriving DecidableEq, Repr

/-- The outcome of `Run`: the action returned (`none` when the call panicked),
the state bag it leaves and the events it caused. -/
structure RunResult where
  action : Option StepAction
  state : StateBag
  trace : List Event
  deriving DecidableEq, Repr

/-- The package's helper `run(ctx, state, cmd)`, whose source is not part of the
files at hand: it executes the shell command `cmd`. It is given the state bag
to reach the ui and the command wrapper, and is not given `ResultKey`; the
recorded result stays as it is. -/
def run (state : StateBag) (cmd : GoString) : StateBag × List Event :=
  (state, [Event.run cmd])

/-- The method `stepMapImage.Cleanup`: the type switch on the value under
`ResultKey`; for a non-empty `[]string` whose first entry holds a match of
`loopRe`, the command `losetup -d <match>`. -/
def Cleanup (state : StateBag) : StateBag × List Event :=
  match state.result with
  | Value.nil => (state, [])
  | Value.strings partitions =>
    match partitions with
    | [] => (state, [])
    | first :: _ =>
      match loopReFind first with
      | some loop => run state ("losetup -d ".toList ++ loop)
      | none => (state, [])
  | Value.other => (state, [])

/-- The body of the loop over the lines of one `lsblk` output: a line with two
fields `name typ`, `name` starting with `partPrefix` and `typ` equal to `part`,
appends `/dev/<name>` to `partitions`. -/
def scanLines (partPrefix : GoString) (lines : List GoString)
    (partitions : List GoString) : List GoString :=
  lines.foldl
    (fun parts line =>
      match Fields line with
      | [name, typ] =>
        if HasPrefix name partPrefix && typ == "part".toList then
          parts ++ ["/dev/".toList ++ name]
        else parts
      | _ => parts)
    partitions

/-- The retry loop `for retries := 0; retries < 30; retries++` of `Run`, with
`remaining = 30 - retries` iterations to go. It returns the slice
`partitions`, the flag `found` and the events of the loop. -/
def lsblkLoop (w : World) (path partPrefix : GoString) (remaining retries : Nat)
    (partitions : List GoString) : List GoString × Bool × List Event :=
  match remaining with
  | 0 => (partitions, false, [])
  | remaining + 1 =>
    let call := Event.exec
      ["lsblk".toList, "-ln".toList, "-o".toList, "NAME,TYPE".toList, path]
    match w.lsblk retries with
    | Except.error err => (partitions, false, [call, Event.uiError ("lsblk failed: ".toList ++ err)])
    | Except.ok lsblkOut =>
      let partitions := scanLines partPrefix (Split lsblkOut '\n') partitions
      if partitions.length > 0 then (partitions, true, [call])
      else
        let (parts, found, events) :=
          lsblkLoop w path partPrefix remaining (retries + 1) partitions
        (parts, found, call :: Event.sleep 1 :: events)

/-- The loop over the entries of `/dev/mapper/` of `Run`: a name that starts
with `loop` or contains `ubuntu--vg` appends `/dev/mapper/<name>` and sets
`found`. -/
def scanMapper (loop : GoString) (mapperFiles : List GoString)
    (partitions : List GoString) (found : Bool) : List GoString × Bool :=
  mapperFiles.foldl
    (fun (acc : List GoString × Bool) name =>
      if HasPrefix name loop || Contains name "ubuntu--vg".toList then
        (acc.1 ++ ["/dev/mapper/".toList ++ name], true)
      else acc)
    (partitions, found)

/-- The comparison closure handed to `sort.SliceStable`: two entries that both
start with `/dev/<partPrefix>` compare by the `Atoi` value of their rest (the
error of `Atoi` is dropped), any other pair compares as strings. -/
def less (partPrefix : GoString) (pi pj : GoString) : Bool :=
  if HasPrefix pi ("/dev/".toList ++ partPrefix) && HasPrefix pj ("/dev/".toList ++ partPrefix) then
    decide ((Atoi (TrimPrefix pi ("/dev/".toList ++ partPrefix))).1
      < (Atoi (TrimPrefix pj ("/dev/".toList ++ partPrefix))).1)
  else strLess pi pj

/-- The sort of `Run`: `sort.SliceStable(partitions, less)`. -/
def sortPartitions (partPrefix : GoString) (partitions : List GoString) : List GoString :=
  SliceStable partitions (less partPrefix)

/-- Go `fmt.Sprintf("%v", partitions)` for a `[]string`: the entries between
square brackets, one blank between two entries. -/
def formatStrings (partitions : List GoString) : GoString :=
  "[".toList ++ (partitions.intersperse " ".toList).flatten ++ "]".toList

/-- The method `stepMapImage.Run`. -/
def Run (w : World) (state : StateBag) : RunResult :=
  let image := state.image
  let start : List Event :=
    [Event.uiMessage ("mapping ".toList ++ image),
     Event.exec ["losetup".toList, "--show".toList, "-f".toList, "-P".toList, image],
     Event.uiSay ("losetup --show -f -P ".toList ++ image)]
  match w.losetupErr with
  | some err =>
    let report := Event.uiError
      ("error losetup --show -f -P ".toList ++ err ++ ": ".toList ++ w.losetupOut)
    let (state, cleanup) := Cleanup state
    { action := some StepAction.ActionHalt, state := state,
      trace := start ++ [report] ++ cleanup }
  | none =>
    let path := TrimSpace w.losetupOut
    match (Split path '/')[2]? with
    | none => { action := none, state := state, trace := start }
    | some loop =>
      let partPrefix := loop ++ "p".toList
      let settle := Event.exec ["udevadm".toList, "settle".toList]
      let (partitions, found, scan) := lsblkLoop w path partPrefix 30 0 []
      let (partitions, found) := scanMapper loop w.mapperFiles partitions found
      let before := start ++ [settle] ++ scan ++ [Event.readDir "/dev/mapper/".toList]
      if !found || partitions.length == 0 then
        let report := Event.uiError
          "No partitions or LVM volumes found. GPT or LVM layout may not be detected.".toList
        let (state, cleanup) := Cleanup state
        { action := some StepAction.ActionHalt, state := state,
          trace := before ++ [report] ++ cleanup }
      else
        let partitions := sortPartitions partPrefix partitions
        { action := some StepAction.ActionContinue,
          state := { state with result := Value.strings partitions },
          trace := before ++
            [Event.uiMessage ("Mapped partitions and volumes: ".toList ++ formatStrings partitions)] }

end Builder

/-! ## `pkg/image/image.go` -/

namespace ImagePkg

/-- The resources an `Image` may own and close. -/
inductive Handle
  /-- The `*os.File` opened by `Open`. -/
  | file
  /-- The reader returned by `zippedfile.Open()`. -/
  | zippedfileReader
  /-- The read end of the pipe to the standard output of `xzcat`. -/
  | xzcatStdout
  deriving DecidableEq, Repr

/-- The two implementations of the interface `Image`: `fileImage` (a file and
its size) and `multiCloser` (the closers `c` and the field `sizeEstimate`); the
reader each embeds is left out. -/
inductive Image
  | fileImage (size : Nat)
  | multiCloser (c : List Handle) (sizeEstimate : Nat)
  deriving DecidableEq, Repr

/-- The methods `fileImage.SizeEstimate` and `multiCloser.SizeEstimate`. -/
def Image.SizeEstimate : Image → Nat
  | Image.fileImage size => size
  | Image.multiCloser _ sizeEstimate => sizeEstimate

/-- The handles `Close` closes, in order: `fileImage` closes its file,
`multiCloser.Close` every closer of `c`. -/
def Image.Close : Image → List Handle
  | Image.fileImage _ => [Handle.file]
  | Image.multiCloser c _ => c

/-- What the file type matcher says about the content of the file. -/
inductive FileType
  | TypeZip
  | TypeXz
  | unknown
  deriving DecidableEq, Repr

/-- An entry `*zip.File` of the archive: its name, its declared uncompressed
size (a `uint64`) and the error of its `Open()`, if any. -/
structure ZipFile where
  Name : GoString
  UncompressedSize64 : Nat
  openErr : Option GoString
  deriving DecidableEq, Repr

/-- What the file system, the zip and xz libraries and the host answer during
one `Open`; an error is the text of the Go error. -/
structure Host where
  /-- The type `filetype.MatchFile(fpath)` returns (its error is ignored). -/
  fileType : FileType
  /-- The error of `os.Open(fpath)`. -/
  openErr : Option GoString
  /-- The result of `f.Stat()`: the size in bytes (an `int64`). -/
  stat : Except GoString Nat
  /-- The result of `zip.NewReader(f, size)`: the entries `r.File`. -/
  zipNewReader : Except GoString (List ZipFile)
  /-- Whether `exec.Command("which", "xzcat").Run()` returned `nil`. -/
  whichXzcat : Bool
  /-- The error of `xzcat.StdoutPipe()`. -/
  stdoutPipeErr : Option GoString
  /-- The error of `xzcat.Start()`. -/
  startErr : Option GoString
  /-- The error of `xz.NewReader(f)`. -/
  xzNewReaderErr : Option GoString

/-- What `Open` does besides returning: messages to the ui and handles it
closes itself. -/
inductive Effect
  | uiSay (msg : GoString)
  | close (h : Handle)
  deriving DecidableEq, Repr

/-- The function `openImage`: the file itself, with the size `Stat` reports
converted to `uint64`. -/
def openImage (h : Host) : Except GoString Image × List Effect :=
  match h.stat with
  | Except.error err => (Except.error err, [])
  | Except.ok fsize => (Except.ok (Image.fileImage (fsize % 2 ^ 64)), [])

/-- The method `imageOpener.openzip`: an archive whose `r.File` has a length
other than 1 is refused. The deferred function closes `f` on every return
before the ownership of `f` passes to the `multiCloser`. -/
def openzip (h : Host) : Except GoString Image × List Effect :=
  match h.stat with
  | Except.error err => (Except.error err, [Effect.close Handle.file])
  | Except.ok _ =>
    match h.zipNewReader with
    | Except.error err => (Except.error err, [Effect.close Handle.file])
    | Except.ok files =>
      match files with
      | [zippedfile] =>
        let say := Effect.uiSay ("Unzipping ".toList ++ zippedfile.Name)
        match zippedfile.openErr with
        | some err => (Except.error err, [say, Effect.close Handle.file])
        | none =>
          (Except.ok (Image.multiCloser [Handle.zippedfileReader, Handle.file]
            zippedfile.UncompressedSize64), [say])
      | _ =>
        (Except.error "support for only zip files with one file.".toList,
          [Effect.close Handle.file])

/-- The method `imageOpener.xzFastlane`: the standard output of a started
`xzcat`, size estimate 0. -/
def xzFastlane (h : Host) : Except GoString Image :=
  match h.stdoutPipeErr with
  | some err => Except.error err
  | none =>
    match h.startErr with
    | some err => Except.error err
    | none => Except.ok (Image.multiCloser [Handle.xzcatStdout] 0)

/-- The in-process decoder of `openxz`, the part after the fast lane. -/
def openxzSlow (h : Host) : Except GoString Image × List Effect :=
  match h.xzNewReaderErr with
  | some err => (Except.error err, [Effect.close Handle.file])
  | none => (Except.ok (Image.multiCloser [Handle.file] 0), [])

/-- The method `imageOpener.openxz`: the fast lane when `xzcat` is there and
starts, else the in-process decoder. -/
def openxz (h : Host) : Except GoString Image × List Effect :=
  if h.whichXzcat then
    match xzFastlane h with
    | Except.ok ret => (Except.ok ret, [])
    | Except.error _ => openxzSlow h
  else openxzSlow h

/-- The method `imageOpener.Open`. -/
def Open (h : Host) : Except GoString Image × List Effect :=
  match h.openErr with
  | some err => (Except.error err, [])
  | none =>
    match h.fileType with
    | FileType.TypeZip =>
      let (r, effects) := openzip h
      (r, Effect.uiSay "Image is a zip file.".toList :: effects)
    | FileType.TypeXz =>
      let (r, effects) := openxz h
      (r, Effect.uiSay "Image is a xz file.".toList :: effects)
    | FileType.unknown => openImage h

end ImagePkg

/-! ## Notions the statements below are written in -/

open Go Builder

/-- The path `/dev/<L>p<k>` of partition `k` of the loop device named `L`. -/
def partPath (L k : GoString) : GoString := "/dev/".toList ++ (L ++ "p".toList) ++ k

/-- The path `/dev/mapper/<name>` of a device-mapper node. -/
def mapperPath (name : GoString) : GoString := "/dev/mapper/".toList ++ name

/-- The number a string of decimal digits denotes. -/
def decVal (k : GoString) : Nat := k.foldl (fun n c => n * 10 + digitVal c) 0

/-- A decimal number: a non-empty string of ASCII digits. -/
def IsDecimal (k : GoString) : Prop := k ≠ [] ∧ ∀ c ∈ k, isDigit c = true

/-- The device name `L` sorts before `mapper`: where `<L>p` and `mapper/` first
differ, `<L>p` has the smaller character. Then `/dev/<L>p<k>` is below every
`/dev/mapper/<name>` in Go's string order, and no `/dev/mapper/<name>` starts
with `/dev/<L>p`. -/
def SortsBeforeMapper (L : GoString) : Prop :=
  ∃ (pre : GoString) (x y : Char) (s t : GoString),
    L ++ "p".toList = pre ++ x :: s ∧ "mapper/".toList = pre ++ y :: t ∧ x.toNat < y.toNat

/-- Go's `<=` on strings: `a` is not after `b` in lexicographic order. -/
def strLessEq (a b : GoString) : Bool := !strLess b a

/-- The partition a row of an `lsblk` listing shows, in the words of the
specification: the row has exactly two white-space separated fields `NAME TYPE`,
`NAME` starts with `partPrefix` and `TYPE` is `part`; the partition is
`/dev/<NAME>`. -/
def rowPartition (partPrefix line : GoString) : Option GoString :=
  match Fields line with
  | [name, typ] =>
    if partPrefix <+: name ∧ typ = "part".toList then some ("/dev/".toList ++ name)
    else none
  | _ => none

/-- The partitions one `lsblk` listing shows, in the order of its rows. -/
def listedPartitions (partPrefix lsblkOut : GoString) : List GoString :=
  (Split lsblkOut '\n').filterMap (rowPartition partPrefix)

/-- The event is an invocation of `lsblk`. -/
def isLsblkCall : Event → Bool
  | Event.exec (name :: _) => name == "lsblk".toList
  | _ => false

/-- The event is a device removal: a command `losetup -d ...` handed to `run`. -/
def isDetach : Event → Bool
  | Event.run cmd => HasPrefix cmd "losetup -d ".toList
  | _ => false

/-- The event is a shell command handed to `run`, whatever the command. -/
def isRunCommand : Event → Bool
  | Event.run _ => true
  | _ => false

/-- The event is an error reported through `ui.Error`. -/
def isUiError : Event → Bool
  | Event.uiError _ => true
  | _ => false

/-- The names of `/dev/mapper/` the step takes: those that start with `loop` or
contain `ubuntu--vg`. -/
def mapperMatches (loop : GoString) (mapperFiles : List GoString) : List GoString :=
  mapperFiles.filter (fun name => HasPrefix name loop || Contains name "ubuntu--vg".toList)

/-- The invocation `lsblk -ln -o NAME,TYPE <path>`. -/
def lsblkCall (path : GoString) : Event :=
  Event.exec ["lsblk".toList, "-ln".toList, "-o".toList, "NAME,TYPE".toList, path]

/-- What `Run` has gathered when it reaches the check after the two scans: the
slice `partitions` and the flag `found`, for the loop device name `loop`. -/
def gathered (w : World) (loop : GoString) : List GoString × Bool :=
  let scan := lsblkLoop w (TrimSpace w.losetupOut) (loop ++ "p".toList) 30 0 []
  scanMapper loop w.mapperFiles scan.1 scan.2.1

/-- Two calls of `Cleanup` in a row: the state bag after them and the events of
both. -/
def cleanupTwice (state : StateBag) : StateBag × List Event :=
  let first := Cleanup state
  let second := Cleanup first.1
  (second.1, first.2 ++ second.2)

/-- The comparison `less` is a strict weak order on the elements that satisfy
`P`: asymmetric, and its negation transitive. -/
structure WeakOrderOn {α : Type} (P : α → Prop) (less : α → α → Bool) : Prop where
  asymm : ∀ a b, P a → P b → less a b = true → less b a = false
  trans : ∀ a b c, P a → P b → P c → less a b = false → less b c = false → less a c = false

/-! ### Concrete inputs -/

/-- A state bag with an image path and nothing recorded under `ResultKey`. -/
def freshState : StateBag := { image := "disk.img".toList, result := Value.nil }

/-- The listing of a loop device without partitions. -/
def bareListing (_ : Nat) : Except GoString GoString := Except.ok "loop7 loop\n".toList

/-- The listing of a loop device with the partitions 1, 10 and 2. -/
def threePartitions (_ : Nat) : Except GoString GoString :=
  Except.ok "loop7    loop\nloop7p1  part\nloop7p10 part\nloop7p2  part\n".toList

/-- `losetup` attaches `/dev/loop7`; no partition shows up and `/dev/mapper/`
holds nothing of the device. -/
def worldNoLayout : World :=
  { losetupOut := "/dev/loop7\n".toList, losetupErr := none,
    mapperFiles := ["control".toList], lsblk := bareListing }

/-- `losetup` attaches `/dev/loop7`; no partition shows up, `/dev/mapper/` holds
two logical volumes. -/
def worldLvmOnly : World :=
  { losetupOut := "/dev/loop7\n".toList, losetupErr := none,
    mapperFiles := ["control".toList, "ubuntu--vg-root".toList, "ubuntu--vg-swap".toList],
    lsblk := bareListing }

/-- `losetup` attaches `/dev/loop7`, which shows three partitions, and
`/dev/mapper/` holds two logical volumes. -/
def worldPartitions : World :=
  { losetupOut := "/dev/loop7\n".toList, losetupErr := none,
    mapperFiles := ["control".toList, "ubuntu--vg-swap".toList, "ubuntu--vg-root".toList],
    lsblk := threePartitions }

/-- The listings of a loop device whose partitions show up at the third
listing. -/
def slowListing (i : Nat) : GoString :=
  if i < 2 then "loop7 loop\n".toList
  else "loop7   loop\nloop7p1 part\nloop7p2 part\nloop7p3 part\n".toList

/-- `losetup` attaches `/dev/loop7`; its three partitions show up at the third
listing. -/
def worldSlowScan : World :=
  { losetupOut := "/dev/loop7\n".toList, losetupErr := none, mapperFiles := [],
    lsblk := (fun i => Except.ok (slowListing i)) }

/-- A readable zip archive with the entries `files`. -/
def zipHost (files : List ImagePkg.ZipFile) : ImagePkg.Host :=
  { fileType := ImagePkg.FileType.TypeZip, openErr := none, stat := Except.ok 1024,
    zipNewReader := Except.ok files, whichXzcat := false, stdoutPipeErr := none,
    startErr := none, xzNewReaderErr := none }

/-- A zip entry `disk.img` of 4096 bytes that opens. -/
def diskEntry : ImagePkg.ZipFile :=
  { Name := "disk.img".toList, UncompressedSize64 := 4096, openErr := none }

/-- The listing of a device `nvme0n1` with one partition. -/
def nvmeListing (_ : Nat) : Except GoString GoString :=
  Except.ok "nvme0n1   disk\nnvme0n1p1 part\n".toList

/-- The tool prints the path `/dev/nvme0n1`, a name that sorts after `mapper`;
the device shows one partition and `/dev/mapper/` holds one logical volume. -/
def worldNvme : World :=
  { losetupOut := "/dev/nvme0n1\n".toList, losetupErr := none,
    mapperFiles := ["control".toList, "ubuntu--vg-root".toList], lsblk := nvmeListing }

/-- `losetup` exits with status 0 and prints nothing. -/
def worldEmptyOutput : World :=
  { losetupOut := [], losetupErr := none, mapperFiles := [], lsblk := bareListing }

/-- `losetup` exits with status 0 and prints a name with a single `/`. -/
def worldShortOutput : World :=
  { losetupOut := "loop/7\n".toList, losetupErr := none, mapperFiles := [],
    lsblk := bareListing }

/-! ## Insertion sort: permutation and order -/

section Sorting

variable {α : Type}

theorem insertBack_perm (less : α → α → Bool) (x : α) (sorted : List α) :
    (insertBack less x sorted).Perm (x :: sorted) := by
  induction sorted with
  | nil => simp [insertBack]
  | cons y ys ih =>
    unfold insertBack
    split
    · exact (List.Perm.cons y ih).trans (List.Perm.swap x y ys)
    · exact List.Perm.refl _

theorem foldl_insertBack_perm (less : α → α → Bool) (data sorted : List α) :
    (data.foldl (fun acc x => insertBack less x acc) sorted).Perm (data ++ sorted) := by
  induction data generalizing sorted with
  | nil => simp
  | cons x xs ih =>
    simp only [List.foldl_cons, List.cons_append]
    refine (ih _).trans ?_
    refine (List.Perm.append_left xs (insertBack_perm less x sorted)).trans ?_
    exact List.perm_middle

theorem SliceStable_perm (data : List α) (less : α → α → Bool) :
    (SliceStable data less).Perm data := by
  unfold SliceStable
  refine (List.reverse_perm _).trans ?_
  simpa using foldl_insertBack_perm less data []

theorem insertBack_pairwise {P : α → Prop} {less : α → α → Bool} (hw : WeakOrderOn P less)
    (x : α) (sorted : List α) (hx : P x) (hs : ∀ y ∈ sorted, P y)
    (h : sorted.Pairwise (fun a b => less a b = false)) :
    (insertBack less x sorted).Pairwise (fun a b => less a b = false) := by
  induction sorted with
  | nil => simp [insertBack]
  | cons y ys ih =>
    have hy : P y := hs y (List.mem_cons_self _ _)
    have hys : ∀ z ∈ ys, P z := fun z hz => hs z (List.mem_cons_of_mem _ hz)
    rw [List.pairwise_cons] at h
    unfold insertBack
    split
    · rename_i hlt
      rw [List.pairwise_cons]
      refine ⟨?_, ih hys h.2⟩
      intro z hz
      rcases List.mem_cons.1 ((insertBack_perm less x ys).mem_iff.1 hz) with rfl | hz
      · exact hw.asymm _ _ hx hy hlt
      · exact h.1 z hz
    · rename_i hlt
      have hxy : less x y = false := by simpa using hlt
      rw [List.pairwise_cons]
      refine ⟨?_, List.pairwise_cons.2 h⟩
      intro z hz
      rcases List.mem_cons.1 hz with rfl | hz
      · exact hxy
      · exact hw.trans _ _ _ hx hy (hys z hz) hxy (h.1 z hz)

theorem foldl_insertBack_pairwise {P : α → Prop} {less : α → α → Bool}
    (hw : WeakOrderOn P less) (data sorted : List α) (hd : ∀ y ∈ data, P y)
    (hs : ∀ y ∈ sorted, P y) (h : sorted.Pairwise (fun a b => less a b = false)) :
    (data.foldl (fun acc x => insertBack less x acc) sorted).Pairwise
      (fun a b => less a b = false) := by
  induction data generalizing sorted with
  | nil => simpa using h
  | cons x xs ih =>
    simp only [List.foldl_cons]
    have hx : P x := hd x (List.mem_cons_self _ _)
    refine ih _ (fun y hy => hd y (List.mem_cons_of_mem _ hy)) ?_
      (insertBack_pairwise hw x sorted hx hs h)
    intro y hy
    rcases List.mem_cons.1 ((insertBack_perm less x sorted).mem_iff.1 hy) with rfl | hy
    · exact hx
    · exact hs y hy

/-- On elements that `less` orders weakly, the result of `SliceStable` is in
order: no entry is `less` than an entry before it. -/
theorem SliceStable_pairwise {P : α → Prop} {less : α → α → Bool} (hw : WeakOrderOn P less)
    (data : List α) (hd : ∀ y ∈ data, P y) :
    (SliceStable data less).Pairwise (fun a b => less b a = false) := by
  unfold SliceStable
  rw [List.pairwise_reverse]
  exact foldl_insertBack_pairwise hw data [] hd (by simp) List.Pairwise.nil

theorem insertBack_map {β : Type} (f : β → α) (less : α → α → Bool) (x : β) (sorted : List β) :
    insertBack less (f x) (sorted.map f) =
      (insertBack (fun a b => less (f a) (f b)) x sorted).map f := by
  induction sorted with
  | nil => simp [insertBack]
  | cons y ys ih =>
    simp only [List.map_cons, insertBack]
    split
    · simp [ih]
    · simp

theorem foldl_insertBack_map {β : Type} (f : β → α) (less : α → α → Bool)
    (data sorted : List β) :
    (data.map f).foldl (fun acc x => insertBack less x acc) (sorted.map f) =
      (data.foldl (fun acc x => insertBack (fun a b => less (f a) (f b)) x acc) sorted).map f := by
  induction data generalizing sorted with
  | nil => simp
  | cons x xs ih =>
    simp only [List.map_cons, List.foldl_cons]
    rw [insertBack_map, ih]

/-- Sorting the images under `f` is sorting the arguments by the comparison
pulled back along `f`. -/
theorem SliceStable_map {β : Type} (f : β → α) (less : α → α → Bool) (data : List β) :
    SliceStable (data.map f) less =
      (SliceStable data (fun a b => less (f a) (f b))).map f := by
  unfold SliceStable
  have h := foldl_insertBack_map f less data []
  simp only [List.map_nil] at h
  rw [h, List.map_reverse]

end Sorting

/-! ## Strings and `Atoi` -/

section Strings

theorem hasPrefix_append (pre k : GoString) : HasPrefix (pre ++ k) pre = true := by
  unfold HasPrefix
  rw [List.isPrefixOf_iff_prefix]
  exact List.prefix_append pre k

theorem trimPrefix_append (pre k : GoString) : TrimPrefix (pre ++ k) pre = k := by
  unfold TrimPrefix
  rw [hasPrefix_append]
  simp

theorem not_sign_of_isDigit (c : Char) (h : isDigit c = true) :
    (c == '-') = false ∧ (c == '+') = false := by
  constructor
  · cases hc : c == '-'
    · rfl
    · rw [beq_iff_eq] at hc
      subst hc
      revert h
      decide
  · cases hc : c == '+'
    · rfl
    · rw [beq_iff_eq] at hc
      subst hc
      revert h
      decide

theorem foldl_digits_ge (k : GoString) (n : Nat) :
    n ≤ k.foldl (fun n c => n * 10 + digitVal c) n := by
  induction k generalizing n with
  | nil => simp
  | cons c cs ih =>
    simp only [List.foldl_cons]
    have := ih (n * 10 + digitVal c)
    omega

theorem atoiFastLoop_digits (k : GoString) (n : Nat) (h : ∀ c ∈ k, isDigit c = true) :
    atoiFastLoop k n = some (k.foldl (fun n c => n * 10 + digitVal c) n) := by
  induction k generalizing n with
  | nil => simp [atoiFastLoop]
  | cons c cs ih =>
    have hc : isDigit c = true := h c (List.mem_cons_self _ _)
    simp only [atoiFastLoop, hc, List.foldl_cons]
    simpa using ih _ (fun d hd => h d (List.mem_cons_of_mem _ hd))

theorem parseUintLoop_digits (k : GoString) (n : Nat) (h : ∀ c ∈ k, isDigit c = true)
    (hb : k.foldl (fun n c => n * 10 + digitVal c) n < 2 ^ 64) :
    parseUintLoop k n = (k.foldl (fun n c => n * 10 + digitVal c) n, none) := by
  induction k generalizing n with
  | nil => simp [parseUintLoop]
  | cons c cs ih =>
    have hc : isDigit c = true := h c (List.mem_cons_self _ _)
    simp only [List.foldl_cons] at hb ⊢
    have hge := foldl_digits_ge cs (n * 10 + digitVal c)
    have h1 : n * 10 + digitVal c < 2 ^ 64 := lt_of_le_of_lt hge hb
    have h2 : ¬ n ≥ maxUint64 / 10 + 1 := by
      norm_num [maxUint64]
      norm_num at h1
      omega
    have h3 : n * 10 % 2 ^ 64 = n * 10 := Nat.mod_eq_of_lt (by omega)
    have h4 : (n * 10 + digitVal c) % 2 ^ 64 = n * 10 + digitVal c := Nat.mod_eq_of_lt h1
    have h5 : ¬ (n * 10 + digitVal c < n * 10 ∨ n * 10 + digitVal c > maxUint64) := by
      norm_num [maxUint64]
      norm_num at h1
      omega
    unfold parseUintLoop
    simp only [hc, Bool.not_true, Bool.false_eq_true, if_false, h2, h3, h4]
    rw [if_neg (by simpa using h5)]
    exact ih _ (fun d hd => h d (List.mem_cons_of_mem _ hd)) hb

/-- On a decimal number below `2 ^ 63`, `Atoi` returns its value and no
error. -/
theorem Atoi_decimal (k : GoString) (hk : IsDecimal k) (hb : decVal k < 2 ^ 63) :
    Atoi k = ((decVal k : Int), none) := by
  obtain ⟨hne, hd⟩ := hk
  cases k with
  | nil => exact absurd rfl hne
  | cons c cs =>
    have hc : isDigit c = true := hd c (List.mem_cons_self _ _)
    obtain ⟨hm, hp⟩ := not_sign_of_isDigit c hc
    unfold Atoi
    split
    · simp only [hm, hp, Bool.or_false, Bool.false_eq_true, if_false, List.isEmpty_cons]
      rw [atoiFastLoop_digits _ _ hd]
      rfl
    · unfold ParseInt
      simp only [hm, hp, Bool.or_false, Bool.false_eq_true, if_false]
      have hb64 : decVal (c :: cs) < 2 ^ 64 := lt_trans hb (by norm_num)
      have hu : ParseUint (c :: cs) = (decVal (c :: cs), none) := by
        unfold ParseUint
        simp only [List.isEmpty_cons, Bool.false_eq_true, if_false]
        exact parseUintLoop_digits _ _ hd hb64
      rw [hu]
      have hcut : ¬ decVal (c :: cs) ≥ 2 ^ (intSize - 1) := by
        simp only [intSize]
        norm_num
        norm_num at hb
        exact hb
      simp [hcut]

end Strings

/-! ## The sort of `Run` on partition paths -/

section NumericOrder

theorem less_partPath (L a b : GoString) (ha : IsDecimal a ∧ decVal a < 2 ^ 63)
    (hb : IsDecimal b ∧ decVal b < 2 ^ 63) :
    less (L ++ "p".toList) (partPath L a) (partPath L b) = decide (decVal a < decVal b) := by
  unfold less partPath
  simp only [hasPrefix_append, trimPrefix_append, Bool.and_self, if_true]
  rw [Atoi_decimal a ha.1 ha.2, Atoi_decimal b hb.1 hb.2]
  simp

theorem weakOrderOn_partPath (L : GoString) :
    WeakOrderOn (fun k => IsDecimal k ∧ decVal k < 2 ^ 63)
      (fun a b => less (L ++ "p".toList) (partPath L a) (partPath L b)) := by
  constructor
  · intro a b ha hb h
    simp only [less_partPath L a b ha hb, less_partPath L b a hb ha, decide_eq_true_eq,
      decide_eq_false_iff_not] at h ⊢
    omega
  · intro a b c ha hb hc h1 h2
    simp only [less_partPath L a b ha hb, less_partPath L b c hb hc, less_partPath L a c ha hc,
      decide_eq_false_iff_not] at h1 h2 ⊢
    omega

/-- C1, as the code has it: for every loop device name `L` and every list of
partition paths `/dev/<L>p<k>` whose `k` is a decimal number below `2 ^ 63`, the
sort of `Run` returns a permutation of the list in ascending order of the
numeric value of `k`. -/
theorem sortPartitions_numeric_order (L : GoString) (ks : List GoString)
    (hk : ∀ k ∈ ks, IsDecimal k ∧ decVal k < 2 ^ 63) :
    ∃ sorted : List GoString, sorted.Perm ks ∧
      sortPartitions (L ++ "p".toList) (ks.map (partPath L)) = sorted.map (partPath L) ∧
      sorted.Pairwise (fun a b => decVal a ≤ decVal b) := by
  refine ⟨SliceStable ks (fun a b => less (L ++ "p".toList) (partPath L a) (partPath L b)),
    SliceStable_perm _ _, ?_, ?_⟩
  · unfold sortPartitions
    exact SliceStable_map (partPath L) (less (L ++ "p".toList)) ks
  · have hp := SliceStable_pairwise (weakOrderOn_partPath L) ks hk
    have hmem : ∀ k ∈ SliceStable ks
        (fun a b => less (L ++ "p".toList) (partPath L a) (partPath L b)),
        IsDecimal k ∧ decVal k < 2 ^ 63 :=
      fun k hkm => hk k ((SliceStable_perm _ _).mem_iff.1 hkm)
    refine List.Pairwise.imp_of_mem ?_ hp
    intro a b ha hb h
    rw [less_partPath L b a (hmem b hb) (hmem a ha)] at h
    simpa using h

/-- The sort of `Run` at `/dev/loop7p1`, `/dev/loop7p10`, `/dev/loop7p2`: the
order is numeric, and the general statement applies to these three. -/
theorem sortPartitions_numeric_order_witness :
    sortPartitions "loop7p".toList
        ["/dev/loop7p1".toList, "/dev/loop7p10".toList, "/dev/loop7p2".toList]
      = ["/dev/loop7p1".toList, "/dev/loop7p2".toList, "/dev/loop7p10".toList] ∧
    ∃ sorted : List GoString, sorted.Perm ["1".toList, "10".toList, "2".toList] ∧
      sortPartitions ("loop7".toList ++ "p".toList)
        (["1".toList, "10".toList, "2".toList].map (partPath "loop7".toList))
        = sorted.map (partPath "loop7".toList) ∧
      sorted.Pairwise (fun a b => decVal a ≤ decVal b) :=
  ⟨by decide,
    sortPartitions_numeric_order "loop7".toList ["1".toList, "10".toList, "2".toList]
      (by
        intro k hk
        simp only [List.mem_cons, List.mem_singleton, List.not_mem_nil, or_false] at hk
        rcases hk with rfl | rfl | rfl <;> exact ⟨⟨by decide, by decide⟩, by decide⟩)⟩

/-- C1 as stated fails for decimal numbers that do not fit an `int`: `Atoi`
clamps 9223372036854775808 to 9223372036854775807, the two entries compare as
equal and stay as they were, the larger number first. -/
theorem sortPartitions_large_index_unordered :
    sortPartitions "loop7p".toList
        (["9223372036854775808".toList, "9223372036854775807".toList].map
          (partPath "loop7".toList))
      = ["9223372036854775808".toList, "9223372036854775807".toList].map
          (partPath "loop7".toList) ∧
    IsDecimal "9223372036854775808".toList ∧ IsDecimal "9223372036854775807".toList ∧
    decVal "9223372036854775807".toList < decVal "9223372036854775808".toList :=
  ⟨by decide, ⟨by decide, by decide⟩, ⟨by decide, by decide⟩, by decide⟩

end NumericOrder

/-! ## The sort of `Run` on partitions mixed with device-mapper nodes -/

section MixedOrder

theorem strLess_asymm (a b : GoString) (h : strLess a b = true) : strLess b a = false := by
  induction a generalizing b with
  | nil => cases b <;> simp [strLess] at h ⊢
  | cons x xs ih =>
    cases b with
    | nil => simp [strLess] at h
    | cons y ys =>
      simp only [strLess] at h ⊢
      split_ifs at h ⊢
      all_goals first | rfl | omega | exact ih _ h

theorem strLess_negTrans (a b c : GoString) (h1 : strLess a b = false)
    (h2 : strLess b c = false) : strLess a c = false := by
  induction a generalizing b c with
  | nil =>
    cases b with
    | nil => exact h2
    | cons y ys => simp [strLess] at h1
  | cons x xs ih =>
    cases c with
    | nil => simp [strLess]
    | cons z zs =>
      cases b with
      | nil => simp [strLess] at h2
      | cons y ys =>
        simp only [strLess] at h1 h2 ⊢
        split_ifs at h1 h2 ⊢
        all_goals first | rfl | omega | exact ih _ _ h1 h2

theorem strLess_append_left (pre a b : GoString) :
    strLess (pre ++ a) (pre ++ b) = strLess a b := by
  induction pre with
  | nil => rfl
  | cons c cs ih => simp [strLess, ih]

theorem dev_toList : "/dev/".toList = ['/', 'd', 'e', 'v', '/'] := rfl

theorem loop_toList : "loop".toList = ['l', 'o', 'o', 'p'] := rfl

theorem mapper_toList :
    "/dev/mapper/".toList = ['/', 'd', 'e', 'v', '/', 'm', 'a', 'p', 'p', 'e', 'r', '/'] := rfl

/-- Every name `loop<N>` sorts before `mapper`: `l` is smaller than `m`. -/
theorem sortsBeforeMapper_loop (N : GoString) : SortsBeforeMapper ("loop".toList ++ N) :=
  ⟨[], 'l', 'm', "oop".toList ++ N ++ "p".toList, "apper/".toList, rfl, rfl, by decide⟩

theorem partPath_split (L k pre s : GoString) (x : Char)
    (h : L ++ "p".toList = pre ++ x :: s) :
    partPath L k = ("/dev/".toList ++ pre) ++ x :: (s ++ k) := by
  unfold partPath
  rw [h]
  simp

theorem mapperPath_split (name pre t : GoString) (y : Char)
    (h : "mapper/".toList = pre ++ y :: t) :
    mapperPath name = ("/dev/".toList ++ pre) ++ y :: (t ++ name) := by
  unfold mapperPath
  have h0 : "/dev/mapper/".toList = "/dev/".toList ++ "mapper/".toList := rfl
  rw [h0, h]
  simp

theorem strLess_part_mapper (L k name : GoString) (hL : SortsBeforeMapper L) :
    strLess (partPath L k) (mapperPath name) = true := by
  obtain ⟨pre, x, y, s, t, h1, h2, hxy⟩ := hL
  rw [partPath_split L k pre s x h1, mapperPath_split name pre t y h2, strLess_append_left]
  simp [strLess, hxy]

theorem strLess_mapper_part (L k name : GoString) (hL : SortsBeforeMapper L) :
    strLess (mapperPath name) (partPath L k) = false :=
  strLess_asymm _ _ (strLess_part_mapper L k name hL)

theorem hasPrefix_partPath (L k : GoString) :
    HasPrefix (partPath L k) ("/dev/".toList ++ (L ++ "p".toList)) = true :=
  hasPrefix_append _ _

theorem hasPrefix_mapperPath_dev (L name : GoString) (hL : SortsBeforeMapper L) :
    HasPrefix (mapperPath name) ("/dev/".toList ++ (L ++ "p".toList)) = false := by
  obtain ⟨pre, x, y, s, t, h1, h2, hxy⟩ := hL
  cases h : HasPrefix (mapperPath name) ("/dev/".toList ++ (L ++ "p".toList)) with
  | false => rfl
  | true =>
    exfalso
    unfold HasPrefix at h
    rw [List.isPrefixOf_iff_prefix, mapperPath_split name pre t y h2, h1,
      ← List.append_assoc, List.prefix_append_right_inj, List.cons_prefix_cons] at h
    rw [h.1] at hxy
    exact Nat.lt_irrefl _ hxy

theorem hasPrefix_mapperPath (name : GoString) :
    HasPrefix (mapperPath name) "/dev/mapper/".toList = true :=
  hasPrefix_append _ _

theorem less_part_part (L a b : GoString) :
    less (L ++ "p".toList) (partPath L a) (partPath L b) =
      decide ((Atoi a).1 < (Atoi b).1) := by
  unfold less
  rw [hasPrefix_partPath, hasPrefix_partPath]
  simp only [partPath, trimPrefix_append, Bool.and_self, if_true]

theorem less_part_mapper (L k name : GoString) (hL : SortsBeforeMapper L) :
    less (L ++ "p".toList) (partPath L k) (mapperPath name) = true := by
  unfold less
  rw [hasPrefix_mapperPath_dev L name hL]
  simpa using strLess_part_mapper L k name hL

theorem less_mapper_part (L k name : GoString) (hL : SortsBeforeMapper L) :
    less (L ++ "p".toList) (mapperPath name) (partPath L k) = false := by
  unfold less
  rw [hasPrefix_mapperPath_dev L name hL]
  simpa using strLess_mapper_part L k name hL

theorem less_mapper_mapper (L a b : GoString) (hL : SortsBeforeMapper L) :
    less (L ++ "p".toList) (mapperPath a) (mapperPath b)
      = strLess (mapperPath a) (mapperPath b) := by
  unfold less
  rw [hasPrefix_mapperPath_dev L a hL]
  simp

/-- On the entries `Run` sorts for a device `L` that sorts before `mapper`,
partition paths of the device and device-mapper paths, the comparison is a
strict weak order. -/
theorem weakOrderOn_mixed (L : GoString) (hL : SortsBeforeMapper L) :
    WeakOrderOn
      (fun p => (∃ k, p = partPath L k) ∨ ∃ name, p = mapperPath name)
      (less (L ++ "p".toList)) := by
  constructor
  · rintro a b (⟨ka, rfl⟩ | ⟨na, rfl⟩) (⟨kb, rfl⟩ | ⟨nb, rfl⟩) h
    · rw [less_part_part] at h ⊢
      simp only [decide_eq_true_eq, decide_eq_false_iff_not] at h ⊢
      omega
    · exact less_mapper_part L ka nb hL
    · rw [less_mapper_part L kb na hL] at h
      exact absurd h (by simp)
    · rw [less_mapper_mapper L _ _ hL] at h ⊢
      exact strLess_asymm _ _ h
  · rintro a b c (⟨ka, rfl⟩ | ⟨na, rfl⟩) (⟨kb, rfl⟩ | ⟨nb, rfl⟩) (⟨kc, rfl⟩ | ⟨nc, rfl⟩) h1 h2
    · rw [less_part_part] at h1 h2 ⊢
      simp only [decide_eq_false_iff_not] at h1 h2 ⊢
      omega
    · rw [less_part_mapper L kb nc hL] at h2
      exact absurd h2 (by simp)
    · rw [less_part_mapper L ka nb hL] at h1
      exact absurd h1 (by simp)
    · rw [less_part_mapper L ka nb hL] at h1
      exact absurd h1 (by simp)
    · exact less_mapper_part L kc na hL
    · rw [less_part_mapper L kb nc hL] at h2
      exact absurd h2 (by simp)
    · exact less_mapper_part L kc na hL
    · rw [less_mapper_mapper L _ _ hL] at h1 h2 ⊢
      exact strLess_negTrans _ _ _ h1 h2

/-- A list in which no entry without the mark `p` stands before an entry with
it is its marked entries followed by its unmarked ones. -/
theorem eq_filter_append_filter {R : GoString → GoString → Prop} (p : GoString → Bool)
    (l : List GoString) (hR : ∀ a b, p a = false → p b = true → ¬ R a b)
    (h : l.Pairwise R) :
    l = l.filter p ++ l.filter (fun a => !p a) := by
  induction l with
  | nil => rfl
  | cons a t ih =>
    rw [List.pairwise_cons] at h
    cases hpa : p a
    · have hall : ∀ b ∈ t, p b = false := by
        intro b hb
        cases hpb : p b
        · rfl
        · exact absurd (h.1 b hb) (hR a b hpa hpb)
      have h1 : t.filter p = [] := by
        rw [List.filter_eq_nil_iff]
        intro b hb
        simp [hall b hb]
      have h2 : t.filter (fun a => !p a) = t := by
        rw [List.filter_eq_self]
        intro b hb
        simp [hall b hb]
      simp [List.filter_cons, hpa, h1, h2]
    · have := ih h.2
      simp only [List.filter_cons, hpa, if_true, Bool.not_true, Bool.false_eq_true, if_false,
        List.cons_append]
      rw [← this]

/-- Two lists, each marked entries followed by unmarked ones, that are
permutations of each other: so are their marked parts and their unmarked
parts. -/
theorem perm_of_marked {p : GoString → Bool} {a b c d : List GoString}
    (h : (a ++ b).Perm (c ++ d)) (ha : ∀ x ∈ a, p x = true) (hb : ∀ x ∈ b, p x = false)
    (hc : ∀ x ∈ c, p x = true) (hd : ∀ x ∈ d, p x = false) :
    a.Perm c ∧ b.Perm d := by
  have hkeep : ∀ l : List GoString, (∀ x ∈ l, p x = true) →
      l.filter p = l ∧ l.filter (fun x => !p x) = [] := by
    intro l hl
    refine ⟨List.filter_eq_self.2 hl, List.filter_eq_nil_iff.2 ?_⟩
    intro x hx
    simp [hl x hx]
  have hdrop : ∀ l : List GoString, (∀ x ∈ l, p x = false) →
      l.filter p = [] ∧ l.filter (fun x => !p x) = l := by
    intro l hl
    refine ⟨List.filter_eq_nil_iff.2 ?_, List.filter_eq_self.2 ?_⟩
    · intro x hx
      simp [hl x hx]
    · intro x hx
      simp [hl x hx]
  have h1 := h.filter p
  have h2 := h.filter (fun x => !p x)
  rw [List.filter_append, List.filter_append, (hkeep a ha).1, (hdrop b hb).1, (hkeep c hc).1,
    (hdrop d hd).1, List.append_nil, List.append_nil] at h1
  rw [List.filter_append, List.filter_append, (hkeep a ha).2, (hdrop b hb).2, (hkeep c hc).2,
    (hdrop d hd).2, List.nil_append, List.nil_append] at h2
  exact ⟨h1, h2⟩

/-- For a device `L` that sorts before `mapper` and a list of partition paths
of `L` and device-mapper paths in any order, the sort of `Run` returns a
permutation in which the partition paths stand before the device-mapper paths
and the device-mapper paths are in ascending lexicographic order. -/
theorem sortPartitions_mixed (L : GoString) (hL : SortsBeforeMapper L) (l : List GoString)
    (hl : ∀ p ∈ l, (∃ k, p = partPath L k) ∨ ∃ name, p = mapperPath name) :
    (sortPartitions (L ++ "p".toList) l).Perm l ∧
    ∃ parts mappers : List GoString,
      sortPartitions (L ++ "p".toList) l = parts ++ mappers ∧
      (∀ p ∈ parts, ∃ k, p = partPath L k) ∧
      (∀ m ∈ mappers, ∃ name, m = mapperPath name) ∧
      mappers.Pairwise (fun a b => strLessEq a b = true) := by
  have hperm : (sortPartitions (L ++ "p".toList) l).Perm l := SliceStable_perm _ _
  have hmem : ∀ p ∈ sortPartitions (L ++ "p".toList) l,
      (∃ k, p = partPath L k) ∨ ∃ name, p = mapperPath name :=
    fun p hp => hl p (hperm.mem_iff.1 hp)
  have hp : (sortPartitions (L ++ "p".toList) l).Pairwise
      (fun a b => less (L ++ "p".toList) b a = false) :=
    SliceStable_pairwise (weakOrderOn_mixed L hL) l hl
  have hmark_part : ∀ k, HasPrefix (partPath L k) ("/dev/".toList ++ (L ++ "p".toList)) = true :=
    fun k => hasPrefix_partPath _ k
  refine ⟨hperm,
    (sortPartitions (L ++ "p".toList) l).filter
      (fun p => HasPrefix p ("/dev/".toList ++ (L ++ "p".toList))),
    (sortPartitions (L ++ "p".toList) l).filter
      (fun p => !HasPrefix p ("/dev/".toList ++ (L ++ "p".toList))),
    ?_, ?_, ?_, ?_⟩
  · refine eq_filter_append_filter
      (R := fun a b =>
        ((∃ k, a = partPath L k) ∨ ∃ name, a = mapperPath name) ∧
        ((∃ k, b = partPath L k) ∨ ∃ name, b = mapperPath name) ∧
        less (L ++ "p".toList) b a = false) _ _ ?_ ?_
    · rintro a b ha hb ⟨hpa, hpb, hless⟩
      rcases hpa with ⟨ka, rfl⟩ | ⟨na, rfl⟩
      · rw [hmark_part] at ha
        exact absurd ha (by simp)
      · rcases hpb with ⟨kb, rfl⟩ | ⟨nb, rfl⟩
        · rw [less_part_mapper L kb na hL] at hless
          exact absurd hless (by simp)
        · rw [hasPrefix_mapperPath_dev L nb hL] at hb
          exact absurd hb (by simp)
    · exact List.Pairwise.imp_of_mem (fun ha hb h => ⟨hmem _ ha, hmem _ hb, h⟩) hp
  · intro p hpm
    rw [List.mem_filter] at hpm
    rcases hmem p hpm.1 with hk | ⟨name, rfl⟩
    · exact hk
    · rw [hasPrefix_mapperPath_dev L name hL] at hpm
      exact absurd hpm.2 (by simp)
  · intro m hm
    rw [List.mem_filter] at hm
    rcases hmem m hm.1 with ⟨k, rfl⟩ | hn
    · rw [hmark_part] at hm
      exact absurd hm.2 (by simp)
    · exact hn
  · have hsub := hp.sublist (List.filter_sublist (l := sortPartitions _ l)
      (p := fun p => !HasPrefix p ("/dev/".toList ++ (L ++ "p".toList))))
    refine List.Pairwise.imp_of_mem ?_ hsub
    intro a b ha hb h
    rw [List.mem_filter] at ha hb
    rcases hmem a ha.1 with ⟨ka, rfl⟩ | ⟨na, rfl⟩
    · rw [hmark_part] at ha
      exact absurd ha.2 (by simp)
    · rcases hmem b hb.1 with ⟨kb, rfl⟩ | ⟨nb, rfl⟩
      · rw [hmark_part] at hb
        exact absurd hb.2 (by simp)
      · rw [less_mapper_mapper L _ _ hL] at h
        simp [strLessEq, h]

end MixedOrder

/-! ## The enumeration of partitions -/

section Enumeration

theorem scanLines_eq (partPrefix : GoString) (lines partitions : List GoString) :
    scanLines partPrefix lines partitions =
      partitions ++ lines.filterMap (rowPartition partPrefix) := by
  unfold scanLines
  induction lines generalizing partitions with
  | nil => simp
  | cons line rest ih =>
    simp only [List.foldl_cons, List.filterMap_cons]
    rw [ih]
    unfold rowPartition
    generalize "part".toList = pt
    generalize "/dev/".toList = dev
    rcases Fields line with _ | ⟨name, _ | ⟨typ, _ | ⟨third, more⟩⟩⟩
    · simp
    · simp
    · have hpre : HasPrefix name partPrefix = true ↔ partPrefix <+: name := by
        unfold HasPrefix
        exact List.isPrefixOf_iff_prefix
      by_cases h1 : partPrefix <+: name <;> by_cases h2 : typ = pt
      · simp [hpre.2 h1, h1, h2]
      · simp [hpre.2 h1, h1, h2]
      · have hf : HasPrefix name partPrefix = false := by
          cases hh : HasPrefix name partPrefix
          · rfl
          · exact absurd (hpre.1 hh) h1
        simp [hf, h1, h2]
      · have hf : HasPrefix name partPrefix = false := by
          cases hh : HasPrefix name partPrefix
          · rfl
          · exact absurd (hpre.1 hh) h1
        simp [hf, h1, h2]
    · simp

theorem lsblkLoop_ok_step (w : World) (path partPrefix : GoString) (remaining retries : Nat)
    (out : GoString) (hok : w.lsblk retries = Except.ok out) :
    lsblkLoop w path partPrefix (remaining + 1) retries [] =
      if listedPartitions partPrefix out ≠ [] then
        (listedPartitions partPrefix out, true, [lsblkCall path])
      else
        ((lsblkLoop w path partPrefix remaining (retries + 1) []).1,
          (lsblkLoop w path partPrefix remaining (retries + 1) []).2.1,
          lsblkCall path :: Event.sleep 1 ::
            (lsblkLoop w path partPrefix remaining (retries + 1) []).2.2) := by
  have hl : scanLines partPrefix (Split out '\n') [] = listedPartitions partPrefix out := by
    rw [scanLines_eq]
    rfl
  rw [lsblkLoop, hok]
  simp only [hl]
  by_cases h : listedPartitions partPrefix out = []
  · simp [h, lsblkCall]
  · have hlen : (listedPartitions partPrefix out).length > 0 := List.length_pos.2 h
    simp [h, hlen, lsblkCall]

/-- While the listings show no partition the loop goes on: after `remaining`
empty listings it ends with nothing found. -/
theorem lsblkLoop_none (w : World) (path partPrefix : GoString) (remaining retries : Nat)
    (h : ∀ j, j < remaining →
      ∃ o, w.lsblk (retries + j) = Except.ok o ∧ listedPartitions partPrefix o = []) :
    lsblkLoop w path partPrefix remaining retries [] =
      ([], false, (List.replicate remaining [lsblkCall path, Event.sleep 1]).flatten) := by
  induction remaining generalizing retries with
  | zero => simp [lsblkLoop]
  | succ n ih =>
    obtain ⟨o, ho, hempty⟩ := h 0 (Nat.succ_pos n)
    rw [lsblkLoop_ok_step w path partPrefix n retries o (by simpa using ho)]
    have hrest : ∀ j, j < n → ∃ o, w.lsblk (retries + 1 + j) = Except.ok o ∧
        listedPartitions partPrefix o = [] := by
      intro j hj
      have := h (j + 1) (Nat.succ_lt_succ hj)
      rwa [show retries + (j + 1) = retries + 1 + j by omega] at this
    rw [ih (retries + 1) hrest]
    simp [hempty, List.replicate_succ]

/-- The first listing that shows a partition ends the loop: its partitions are
the result, and no listing follows. -/
theorem lsblkLoop_first (w : World) (path partPrefix : GoString) (remaining retries d : Nat)
    (out : GoString) (hd : d < remaining)
    (hprev : ∀ j, j < d →
      ∃ o, w.lsblk (retries + j) = Except.ok o ∧ listedPartitions partPrefix o = [])
    (hcur : w.lsblk (retries + d) = Except.ok out)
    (hparts : listedPartitions partPrefix out ≠ []) :
    lsblkLoop w path partPrefix remaining retries [] =
      (listedPartitions partPrefix out, true,
        (List.replicate d [lsblkCall path, Event.sleep 1]).flatten ++ [lsblkCall path]) := by
  induction d generalizing remaining retries with
  | zero =>
    obtain ⟨n, rfl⟩ : ∃ n, remaining = n + 1 := ⟨remaining - 1, by omega⟩
    rw [lsblkLoop_ok_step w path partPrefix n retries out (by simpa using hcur)]
    simp [hparts]
  | succ e ih =>
    obtain ⟨n, rfl⟩ : ∃ n, remaining = n + 1 := ⟨remaining - 1, by omega⟩
    obtain ⟨o, ho, hempty⟩ := hprev 0 (Nat.succ_pos e)
    rw [lsblkLoop_ok_step w path partPrefix n retries o (by simpa using ho)]
    have hrest : ∀ j, j < e → ∃ o, w.lsblk (retries + 1 + j) = Except.ok o ∧
        listedPartitions partPrefix o = [] := by
      intro j hj
      have := hprev (j + 1) (Nat.succ_lt_succ hj)
      rwa [show retries + (j + 1) = retries + 1 + j by omega] at this
    have hcur2 : w.lsblk (retries + 1 + e) = Except.ok out := by
      rwa [show retries + 1 + e = retries + (e + 1) by omega]
    rw [ih n (retries + 1) (by omega) hrest hcur2]
    simp [hempty, List.replicate_succ]

theorem filter_lsblkCall_replicate (path : GoString) (d : Nat) :
    (List.replicate d [lsblkCall path, Event.sleep 1]).flatten.filter isLsblkCall
      = List.replicate d (lsblkCall path) := by
  induction d with
  | zero => simp
  | succ n ih =>
    have h1 : isLsblkCall (lsblkCall path) = true := by simp [isLsblkCall, lsblkCall]
    have h2 : isLsblkCall (Event.sleep 1) = false := rfl
    simp only [List.replicate_succ, List.flatten_cons, List.cons_append, List.nil_append,
      List.filter_cons, h1, h2, if_true, Bool.false_eq_true, if_false, ih]

end Enumeration

/-! ## `Run` as a whole -/

section RunAsAWhole

theorem scanMapper_eq (loop : GoString) (mapperFiles partitions : List GoString) (found : Bool) :
    scanMapper loop mapperFiles partitions found =
      (partitions ++ (mapperMatches loop mapperFiles).map mapperPath,
        found || !(mapperMatches loop mapperFiles).isEmpty) := by
  unfold scanMapper mapperMatches
  induction mapperFiles generalizing partitions found with
  | nil => simp
  | cons name rest ih =>
    simp only [List.foldl_cons, List.filter_cons]
    by_cases h : (HasPrefix name loop || Contains name "ubuntu--vg".toList) = true
    · rw [if_pos h, if_pos h, ih]
      simp [mapperPath]
    · rw [if_neg h, if_neg h, ih]

theorem rowPartition_some (partPrefix line p : GoString)
    (h : rowPartition partPrefix line = some p) :
    ∃ name, HasPrefix name partPrefix = true ∧ p = "/dev/".toList ++ name := by
  unfold rowPartition at h
  split at h
  · rename_i name typ _
    split at h
    · rename_i hc
      exact ⟨name, List.isPrefixOf_iff_prefix.2 hc.1, (Option.some.inj h).symm⟩
    · exact absurd h (by simp)
  · exact absurd h (by simp)

theorem listedPartitions_mem (partPrefix out p : GoString)
    (h : p ∈ listedPartitions partPrefix out) :
    ∃ name, HasPrefix name partPrefix = true ∧ p = "/dev/".toList ++ name := by
  unfold listedPartitions at h
  rw [List.mem_filterMap] at h
  obtain ⟨line, _, hline⟩ := h
  exact rowPartition_some partPrefix line p hline

/-- Whatever the listings are, errors included: the loop sets `found` exactly
when it returns a partition, and every partition it returns is `/dev/<name>`
for a name that starts with `partPrefix`. -/
theorem lsblkLoop_found_mem (w : World) (path partPrefix : GoString) (remaining retries : Nat) :
    (lsblkLoop w path partPrefix remaining retries []).2.1
        = !(lsblkLoop w path partPrefix remaining retries []).1.isEmpty ∧
    ∀ p ∈ (lsblkLoop w path partPrefix remaining retries []).1,
      ∃ name, HasPrefix name partPrefix = true ∧ p = "/dev/".toList ++ name := by
  induction remaining generalizing retries with
  | zero => simp [lsblkLoop]
  | succ n ih =>
    cases hl : w.lsblk retries with
    | error err =>
      rw [lsblkLoop, hl]
      simp
    | ok out =>
      rw [lsblkLoop_ok_step w path partPrefix n retries out hl]
      by_cases h : listedPartitions partPrefix out = []
      · simpa [h] using ih (retries + 1)
      · simp only [ne_eq, h, not_false_eq_true, if_true]
        refine ⟨?_, fun p hp => listedPartitions_mem partPrefix out p hp⟩
        cases hl2 : listedPartitions partPrefix out with
        | nil => exact absurd hl2 h
        | cons a t => rfl

theorem lsblkLoop_no_detach (w : World) (path partPrefix : GoString) (remaining retries : Nat)
    (partitions : List GoString) :
    ∀ e ∈ (lsblkLoop w path partPrefix remaining retries partitions).2.2, isDetach e = false := by
  induction remaining generalizing retries partitions with
  | zero => simp [lsblkLoop]
  | succ n ih =>
    rw [lsblkLoop]
    cases w.lsblk retries with
    | error err => simp [isDetach]
    | ok out =>
      simp only
      split
      · simp [isDetach]
      · intro e he
        simp only [List.mem_cons] at he
        rcases he with rfl | rfl | he
        · rfl
        · rfl
        · exact ih _ _ e he

theorem gathered_eq (w : World) (loop : GoString) :
    gathered w loop =
      ((lsblkLoop w (TrimSpace w.losetupOut) (loop ++ "p".toList) 30 0 []).1
          ++ (mapperMatches loop w.mapperFiles).map mapperPath,
        !((lsblkLoop w (TrimSpace w.losetupOut) (loop ++ "p".toList) 30 0 []).1
          ++ (mapperMatches loop w.mapperFiles).map mapperPath).isEmpty) := by
  unfold gathered
  simp only [scanMapper_eq]
  rw [(lsblkLoop_found_mem w _ _ 30 0).1]
  congr 1
  cases (lsblkLoop w (TrimSpace w.losetupOut) (loop ++ "p".toList) 30 0 []).1 <;>
    cases (mapperMatches loop w.mapperFiles) <;> simp

theorem Cleanup_state (state : StateBag) : (Cleanup state).1 = state := by
  unfold Cleanup
  split
  · rfl
  · split
    · rfl
    · split <;> rfl
  · rfl

theorem Cleanup_nil (state : StateBag) (h : state.result = Value.nil) :
    (Cleanup state).2 = [] := by
  unfold Cleanup
  rw [h]

/-- When `losetup` succeeds with a path that has a third segment and something
was gathered, `Run` continues and records the sorted list. -/
theorem Run_continue (w : World) (state : StateBag) (loop : GoString)
    (hok : w.losetupErr = none)
    (hloop : (Split (TrimSpace w.losetupOut) '/')[2]? = some loop)
    (hg : (gathered w loop).1 ≠ []) :
    (Run w state).action = some StepAction.ActionContinue ∧
    (Run w state).state =
      { state with
        result := Value.strings (sortPartitions (loop ++ "p".toList) (gathered w loop).1) } ∧
    (Run w state).trace.filter isDetach = [] := by
  have hfound : (gathered w loop).2 = true := by
    rw [gathered_eq] at hg ⊢
    simpa [List.isEmpty_iff] using hg
  have hlen : ((gathered w loop).1.length == 0) = false := by
    cases hgl : (gathered w loop).1 with
    | nil => exact absurd hgl hg
    | cons a t => rfl
  unfold gathered at hfound hlen
  unfold Run
  simp only [hok, hloop, hfound, hlen]
  refine ⟨rfl, rfl, ?_⟩
  have hscan := lsblkLoop_no_detach w (TrimSpace w.losetupOut) (loop ++ "p".toList) 30 0 []
  simp only [Bool.not_true, Bool.or_false, Bool.false_eq_true, if_false]
  simp only [List.filter_append, List.append_eq_nil, List.filter_eq_nil_iff]
  refine ⟨⟨⟨⟨?_, ?_⟩, ?_⟩, ?_⟩, ?_⟩
  · intro e he
    simp only [List.mem_cons, List.mem_singleton, List.not_mem_nil, or_false] at he
    rcases he with rfl | rfl | rfl <;> simp [isDetach]
  · intro e he
    simp only [List.mem_singleton] at he
    subst he
    simp [isDetach]
  · intro e he
    simp [hscan e he]
  · intro e he
    simp only [List.mem_singleton] at he
    subst he
    simp [isDetach]
  · intro e he
    simp only [List.mem_singleton] at he
    subst he
    simp [isDetach]

/-- When `losetup` succeeds with a path that has a third segment and nothing was
gathered, `Run` reports the layout error, calls `Cleanup` on the state bag as it
found it, and halts without recording a result. -/
theorem Run_halt (w : World) (state : StateBag) (loop : GoString)
    (hok : w.losetupErr = none)
    (hloop : (Split (TrimSpace w.losetupOut) '/')[2]? = some loop)
    (hg : (gathered w loop).1 = []) :
    (Run w state).action = some StepAction.ActionHalt ∧
    (Run w state).state = state ∧
    Event.uiError
      "No partitions or LVM volumes found. GPT or LVM layout may not be detected.".toList
      ∈ (Run w state).trace ∧
    (Run w state).trace.filter isDetach = (Cleanup state).2.filter isDetach := by
  have hlen : ((gathered w loop).1.length == 0) = true := by
    rw [hg]
    rfl
  unfold gathered at hlen
  unfold Run
  simp only [hok, hloop, hlen, Bool.or_true, if_true]
  refine ⟨trivial, Cleanup_state state, ?_, ?_⟩
  · simp
  · have hscan := lsblkLoop_no_detach w (TrimSpace w.losetupOut) (loop ++ "p".toList) 30 0 []
    simp only [List.filter_append]
    have h1 : ∀ l : List Event, (∀ e ∈ l, isDetach e = false) → l.filter isDetach = [] := by
      intro l hl
      rw [List.filter_eq_nil_iff]
      intro e he
      simp [hl e he]
    rw [h1 _ hscan, h1 [Event.readDir "/dev/mapper/".toList] (by simp [isDetach]),
      h1 [Event.exec ["udevadm".toList, "settle".toList]] (by simp [isDetach]),
      h1 [Event.uiError
        "No partitions or LVM volumes found. GPT or LVM layout may not be detected.".toList]
        (by simp [isDetach]),
      h1 [Event.uiMessage ("mapping ".toList ++ state.image),
        Event.exec ["losetup".toList, "--show".toList, "-f".toList, "-P".toList, state.image],
        Event.uiSay ("losetup --show -f -P ".toList ++ state.image)]
        (by
          intro e he
          simp only [List.mem_cons, List.mem_singleton, List.not_mem_nil, or_false] at he
          rcases he with rfl | rfl | rfl <;> rfl)]
    simp

theorem Split_append_sep (a b : GoString) (sep : Char) (h : sep ∉ a) :
    Split (a ++ sep :: b) sep = a :: Split b sep := by
  induction a with
  | nil => simp [Split]
  | cons c cs ih =>
    have hc : c ≠ sep := fun hcs => h (hcs ▸ List.mem_cons_self _ _)
    have hcs : sep ∉ cs := fun hm => h (List.mem_cons_of_mem _ hm)
    rw [List.cons_append, Split, if_neg hc, ih hcs]

theorem Split_no_sep (a : GoString) (sep : Char) (h : sep ∉ a) : Split a sep = [a] := by
  induction a with
  | nil => simp [Split]
  | cons c cs ih =>
    have hc : c ≠ sep := fun hcs => h (hcs ▸ List.mem_cons_self _ _)
    have hcs : sep ∉ cs := fun hm => h (List.mem_cons_of_mem _ hm)
    simp only [Split, hc, if_false, ih hcs]

theorem isDigit_ne_slash (N : GoString) (hN : ∀ c ∈ N, isDigit c = true) : '/' ∉ N := by
  intro hm
  have := hN '/' hm
  revert this
  decide

/-- The loop device name `Run` takes from the path `/dev/loop<N>`. -/
theorem Split_loop_path (N : GoString) (hN : ∀ c ∈ N, isDigit c = true) :
    (Split ("/dev/loop".toList ++ N) '/')[2]? = some ("loop".toList ++ N) := by
  have h0 : "/dev/loop".toList ++ N
      = [] ++ '/' :: (['d', 'e', 'v'] ++ '/' :: ("loop".toList ++ N)) := rfl
  have hloop : '/' ∉ "loop".toList ++ N := by
    intro hm
    rcases List.mem_append.1 hm with h | h
    · revert h
      decide
    · exact isDigit_ne_slash N hN h
  rw [h0, Split_append_sep _ _ _ (by simp), Split_append_sep _ _ _ (by decide),
    Split_no_sep _ _ hloop]
  rfl

theorem takeWhile_digits_append (N rest : GoString) (hN : ∀ c ∈ N, isDigit c = true) :
    (N ++ 'p' :: rest).takeWhile isDigit = N := by
  induction N with
  | nil =>
    have : isDigit 'p' = false := by decide
    simp [List.takeWhile, this]
  | cons c cs ih =>
    have hc : isDigit c = true := hN c (List.mem_cons_self _ _)
    simp only [List.cons_append, List.takeWhile_cons, hc, if_true]
    rw [ih (fun d hd => hN d (List.mem_cons_of_mem _ hd))]

/-- The match of `loopRe` in a partition path of `/dev/loop<N>` is
`/dev/loop<N>`. -/
theorem loopReFind_partPath (N k : GoString) (hN : IsDecimal N) :
    loopReFind (partPath ("loop".toList ++ N) k) = some ("/dev/loop".toList ++ N) := by
  have h0 : partPath ("loop".toList ++ N) k
      = '/' :: ("dev/loop".toList ++ (N ++ 'p' :: k)) := by
    simp [partPath, dev_toList, loop_toList]
  have h1 : '/' :: ("dev/loop".toList ++ (N ++ 'p' :: k))
      = "/dev/loop".toList ++ (N ++ 'p' :: k) := rfl
  rw [h0]
  unfold loopReFind
  have hm : loopReMatchHere ('/' :: ("dev/loop".toList ++ (N ++ 'p' :: k)))
      = some ("/dev/loop".toList ++ N) := by
    unfold loopReMatchHere
    rw [h1]
    have hp : "/dev/loop".toList.isPrefixOf ("/dev/loop".toList ++ (N ++ 'p' :: k)) = true := by
      rw [List.isPrefixOf_iff_prefix]
      exact List.prefix_append _ _
    have hd : ("/dev/loop".toList ++ (N ++ 'p' :: k)).drop 9 = N ++ 'p' :: k := rfl
    rw [if_pos hp, hd, takeWhile_digits_append N k hN.2]
    obtain ⟨c, cs, rfl⟩ := List.exists_cons_of_ne_nil hN.1
    rfl
  rw [hm]

theorem listedPartitions_partPath (L out p : GoString)
    (h : p ∈ listedPartitions (L ++ "p".toList) out) : ∃ k, p = partPath L k := by
  obtain ⟨name, hpre, rfl⟩ := listedPartitions_mem _ _ _ h
  unfold HasPrefix at hpre
  rw [List.isPrefixOf_iff_prefix] at hpre
  obtain ⟨k, rfl⟩ := hpre
  exact ⟨k, by simp [partPath]⟩

/-- When the list holds a partition path of a device `L` that sorts before
`mapper`, beside device-mapper paths, the sorted list starts with a partition
path. -/
theorem sortPartitions_head_part (L : GoString) (hL : SortsBeforeMapper L) (l : List GoString)
    (hl : ∀ p ∈ l, (∃ k, p = partPath L k) ∨ ∃ name, p = mapperPath name)
    (hpart : ∃ k, partPath L k ∈ l) :
    ∃ k rest, sortPartitions (L ++ "p".toList) l = partPath L k :: rest := by
  have hperm : (sortPartitions (L ++ "p".toList) l).Perm l := SliceStable_perm _ _
  have hp : (sortPartitions (L ++ "p".toList) l).Pairwise
      (fun a b => less (L ++ "p".toList) b a = false) :=
    SliceStable_pairwise (weakOrderOn_mixed L hL) l hl
  obtain ⟨k, hk⟩ := hpart
  have hk2 := hperm.mem_iff.2 hk
  cases hs : sortPartitions (L ++ "p".toList) l with
  | nil =>
    rw [hs] at hk2
    exact absurd hk2 (List.not_mem_nil _)
  | cons a t =>
    rw [hs] at hk2 hp
    have ha : a ∈ l := hperm.mem_iff.1 (by rw [hs]; exact List.mem_cons_self _ _)
    rcases hl a ha with ⟨ka, rfl⟩ | ⟨na, rfl⟩
    · exact ⟨ka, t, rfl⟩
    · rcases List.mem_cons.1 hk2 with heq | hmem
      · have h1 := hasPrefix_partPath L k
        rw [heq, hasPrefix_mapperPath_dev L na hL] at h1
        exact absurd h1 (by simp)
      · have := (List.pairwise_cons.1 hp).1 _ hmem
        rw [less_part_mapper L k na hL] at this
        exact absurd this (by simp)

theorem Cleanup_no_lsblkCall (state : StateBag) :
    (Cleanup state).2.filter isLsblkCall = [] := by
  unfold Cleanup
  split
  · rfl
  · split
    · rfl
    · split <;> rfl
  · rfl

/-- The `lsblk` invocations of `Run` are those of its retry loop. -/
theorem Run_lsblkCalls (w : World) (state : StateBag) (loop : GoString)
    (hok : w.losetupErr = none)
    (hloop : (Split (TrimSpace w.losetupOut) '/')[2]? = some loop) :
    (Run w state).trace.filter isLsblkCall
      = (lsblkLoop w (TrimSpace w.losetupOut) (loop ++ "p".toList) 30 0 []).2.2.filter
          isLsblkCall := by
  have hstart : ([Event.uiMessage ("mapping ".toList ++ state.image),
      Event.exec ["losetup".toList, "--show".toList, "-f".toList, "-P".toList, state.image],
      Event.uiSay ("losetup --show -f -P ".toList ++ state.image)]).filter isLsblkCall = [] :=
    rfl
  have hsettle : ([Event.exec ["udevadm".toList, "settle".toList]]).filter isLsblkCall = [] :=
    rfl
  have hread : ([Event.readDir "/dev/mapper/".toList]).filter isLsblkCall = [] := rfl
  have herr : ∀ msg, ([Event.uiError msg]).filter isLsblkCall = [] := fun _ => rfl
  have hmsg : ∀ msg, ([Event.uiMessage msg]).filter isLsblkCall = [] := fun _ => rfl
  unfold Run
  simp only [hok, hloop]
  split
  · simp only [List.filter_append, hstart, hsettle, hread, herr, Cleanup_no_lsblkCall,
      List.nil_append, List.append_nil]
  · simp only [List.filter_append, hstart, hsettle, hread, hmsg, List.nil_append,
      List.append_nil]

/-- What `Run` does when listing `i` is the first to show a partition: it
continues, records the sort of the partitions of that listing followed by the
matching device-mapper paths, and has made `i + 1` invocations of `lsblk`. -/
theorem Run_of_listing (w : World) (state : StateBag) (L : GoString)
    (hok : w.losetupErr = none)
    (hloop : (Split (TrimSpace w.losetupOut) '/')[2]? = some L)
    (i : Nat) (hi : i < 30) (out : GoString)
    (hprev : ∀ j, j < i → ∃ o, w.lsblk j = Except.ok o ∧
      listedPartitions (L ++ "p".toList) o = [])
    (hcur : w.lsblk i = Except.ok out)
    (hparts : listedPartitions (L ++ "p".toList) out ≠ []) :
    (Run w state).action = some StepAction.ActionContinue ∧
    (Run w state).state =
      { state with
        result := Value.strings (sortPartitions (L ++ "p".toList)
          (listedPartitions (L ++ "p".toList) out
            ++ (mapperMatches L w.mapperFiles).map mapperPath)) } ∧
    (Run w state).trace.filter isLsblkCall
      = List.replicate (i + 1) (lsblkCall (TrimSpace w.losetupOut)) := by
  have hscan := lsblkLoop_first w (TrimSpace w.losetupOut) (L ++ "p".toList) 30 0 i out hi
    (by simpa using hprev) (by simpa using hcur) hparts
  have hgath : (gathered w L).1
      = listedPartitions (L ++ "p".toList) out
        ++ (mapperMatches L w.mapperFiles).map mapperPath := by
    rw [gathered_eq, hscan]
  have hne : (gathered w L).1 ≠ [] := by
    rw [hgath]
    intro h
    exact hparts (List.append_eq_nil.1 h).1
  obtain ⟨hact, hstate, _⟩ := Run_continue w state L hok hloop hne
  refine ⟨hact, ?_, ?_⟩
  · rw [hstate, hgath]
  · rw [Run_lsblkCalls w state L hok hloop, hscan]
    have h1 : isLsblkCall (lsblkCall (TrimSpace w.losetupOut)) = true := by
      simp [isLsblkCall, lsblkCall]
    simp only [List.filter_append, filter_lsblkCall_replicate, List.filter_cons, h1, if_true,
      List.filter_nil]
    rw [List.replicate_succ']

/-- What `Run` does when none of the 30 listings shows a partition: it has made
30 invocations of `lsblk` and has gathered the matching device-mapper paths
only. -/
theorem Run_of_no_listing (w : World) (state : StateBag) (L : GoString)
    (hok : w.losetupErr = none)
    (hloop : (Split (TrimSpace w.losetupOut) '/')[2]? = some L)
    (hnone : ∀ j, j < 30 → ∃ o, w.lsblk j = Except.ok o ∧
      listedPartitions (L ++ "p".toList) o = []) :
    (gathered w L).1 = (mapperMatches L w.mapperFiles).map mapperPath ∧
    (Run w state).trace.filter isLsblkCall
      = List.replicate 30 (lsblkCall (TrimSpace w.losetupOut)) := by
  have hscan := lsblkLoop_none w (TrimSpace w.losetupOut) (L ++ "p".toList) 30 0
    (by simpa using hnone)
  refine ⟨by rw [gathered_eq, hscan]; rfl, ?_⟩
  rw [Run_lsblkCalls w state L hok hloop, hscan]
  exact filter_lsblkCall_replicate _ 30

/-- When `losetup` returns `/dev/loop<N>` and a listing within the retry budget
shows a partition, `Run` continues and the recorded list starts with a
partition path of the device. -/
theorem Run_head_partition (w : World) (state : StateBag) (N : GoString)
    (hN : IsDecimal N) (hok : w.losetupErr = none)
    (hpath : TrimSpace w.losetupOut = "/dev/loop".toList ++ N)
    (i : Nat) (hi : i < 30) (out : GoString)
    (hprev : ∀ j, j < i → ∃ o, w.lsblk j = Except.ok o ∧
      listedPartitions ("loop".toList ++ N ++ "p".toList) o = [])
    (hcur : w.lsblk i = Except.ok out)
    (hparts : listedPartitions ("loop".toList ++ N ++ "p".toList) out ≠ []) :
    (Run w state).action = some StepAction.ActionContinue ∧
    ∃ k rest, (Run w state).state
      = { state with result := Value.strings (partPath ("loop".toList ++ N) k :: rest) } := by
  have hloop : (Split (TrimSpace w.losetupOut) '/')[2]? = some ("loop".toList ++ N) := by
    rw [hpath]
    exact Split_loop_path N hN.2
  obtain ⟨hact, hstate, _⟩ :=
    Run_of_listing w state ("loop".toList ++ N) hok hloop i hi out hprev hcur hparts
  obtain ⟨p0, hp0⟩ := List.exists_mem_of_ne_nil _ hparts
  have hl : ∀ p ∈ listedPartitions ("loop".toList ++ N ++ "p".toList) out
        ++ (mapperMatches ("loop".toList ++ N) w.mapperFiles).map mapperPath,
      (∃ k, p = partPath ("loop".toList ++ N) k) ∨ ∃ name, p = mapperPath name := by
    intro p hp
    rcases List.mem_append.1 hp with h | h
    · exact Or.inl (listedPartitions_partPath _ _ _ h)
    · obtain ⟨name, _, rfl⟩ := List.mem_map.1 h
      exact Or.inr ⟨name, rfl⟩
  obtain ⟨k0, hk0⟩ := listedPartitions_partPath _ _ _ hp0
  have hin : partPath ("loop".toList ++ N) k0
      ∈ listedPartitions ("loop".toList ++ N ++ "p".toList) out
        ++ (mapperMatches ("loop".toList ++ N) w.mapperFiles).map mapperPath := by
    rw [← hk0]
    exact List.mem_append_left _ hp0
  obtain ⟨k, rest, hsorted⟩ :=
    sortPartitions_head_part ("loop".toList ++ N) (sortsBeforeMapper_loop N) _ hl ⟨k0, hin⟩
  exact ⟨hact, k, rest, by rw [hstate, hsorted]⟩

end RunAsAWhole

/-! ## Attach followed by Detach -/

section AttachDetach

/-- C5: when `losetup` returns the path `/dev/loop<N>` and a listing within the
retry budget shows at least one partition of the device, `Run` continues, the
first entry of the recorded result is a partition path `/dev/loop<N>p<k>`, and
`Cleanup` issues exactly one command, `losetup -d /dev/loop<N>`, whatever
device-mapper entries were appended. -/
theorem Run_then_Cleanup_detaches_loop (w : World) (state : StateBag) (N : GoString)
    (hN : IsDecimal N) (hok : w.losetupErr = none)
    (hpath : TrimSpace w.losetupOut = "/dev/loop".toList ++ N)
    (i : Nat) (hi : i < 30) (out : GoString)
    (hprev : ∀ j, j < i → ∃ o, w.lsblk j = Except.ok o ∧
      listedPartitions ("loop".toList ++ N ++ "p".toList) o = [])
    (hcur : w.lsblk i = Except.ok out)
    (hparts : listedPartitions ("loop".toList ++ N ++ "p".toList) out ≠ []) :
    (Run w state).action = some StepAction.ActionContinue ∧
    ∃ k rest, (Run w state).state.result
        = Value.strings (partPath ("loop".toList ++ N) k :: rest) ∧
      (Cleanup (Run w state).state).2
        = [Event.run ("losetup -d ".toList ++ ("/dev/loop".toList ++ N))] := by
  obtain ⟨hact, k, rest, hstate⟩ :=
    Run_head_partition w state N hN hok hpath i hi out hprev hcur hparts
  refine ⟨hact, k, rest, ?_, ?_⟩
  · rw [hstate]
  · rw [hstate]
    simp only [Cleanup, loopReFind_partPath N k hN, run]

/-- Attach and Detach at `/dev/loop7` with three partitions and two logical
volumes: the recorded result, the one command of `Cleanup`, and the general
statement applied to this run. -/
theorem Run_then_Cleanup_detaches_loop_witness :
    (Run worldPartitions freshState).state.result
      = Value.strings ["/dev/loop7p1".toList, "/dev/loop7p2".toList, "/dev/loop7p10".toList,
          "/dev/mapper/ubuntu--vg-root".toList, "/dev/mapper/ubuntu--vg-swap".toList] ∧
    ((Run worldPartitions freshState).action = some StepAction.ActionContinue ∧
      ∃ k rest, (Run worldPartitions freshState).state.result
          = Value.strings (partPath ("loop".toList ++ "7".toList) k :: rest) ∧
        (Cleanup (Run worldPartitions freshState).state).2
          = [Event.run ("losetup -d ".toList ++ ("/dev/loop".toList ++ "7".toList))]) :=
  ⟨by decide,
    Run_then_Cleanup_detaches_loop worldPartitions freshState "7".toList
      ⟨by decide, by decide⟩ rfl (by decide) 0 (by decide)
      "loop7    loop\nloop7p1  part\nloop7p10 part\nloop7p2  part\n".toList
      (fun j hj => absurd hj (Nat.not_lt_zero j)) rfl (by decide)⟩

/-- C2, as the code has it: for a device name `L` that sorts before `mapper` (as
every `loop<N>` does) and a run in which a listing within the retry budget shows
partitions, `Run` continues and the list it records is the partition paths
`/dev/<L>p<k>` of that listing, in some order, followed by the matching
device-mapper paths `/dev/mapper/<name>` in ascending lexicographic order,
whatever the order of the names in `/dev/mapper/`. -/
theorem Run_records_partitions_before_mapper (w : World) (state : StateBag) (L : GoString)
    (hok : w.losetupErr = none)
    (hloop : (Split (TrimSpace w.losetupOut) '/')[2]? = some L)
    (hL : SortsBeforeMapper L)
    (i : Nat) (hi : i < 30) (out : GoString)
    (hprev : ∀ j, j < i → ∃ o, w.lsblk j = Except.ok o ∧
      listedPartitions (L ++ "p".toList) o = [])
    (hcur : w.lsblk i = Except.ok out)
    (hparts : listedPartitions (L ++ "p".toList) out ≠ []) :
    (Run w state).action = some StepAction.ActionContinue ∧
    ∃ parts mappers : List GoString,
      (Run w state).state.result = Value.strings (parts ++ mappers) ∧
      parts.Perm (listedPartitions (L ++ "p".toList) out) ∧
      mappers.Perm ((mapperMatches L w.mapperFiles).map mapperPath) ∧
      (∀ p ∈ parts, ∃ k, p = partPath L k) ∧
      (∀ m ∈ mappers, ∃ name, m = mapperPath name) ∧
      mappers.Pairwise (fun a b => strLessEq a b = true) := by
  obtain ⟨hact, hstate, _⟩ := Run_of_listing w state L hok hloop i hi out hprev hcur hparts
  have hlisted : ∀ p ∈ listedPartitions (L ++ "p".toList) out, ∃ k, p = partPath L k :=
    fun p hp => listedPartitions_partPath _ _ _ hp
  have hmapped : ∀ m ∈ (mapperMatches L w.mapperFiles).map mapperPath,
      ∃ name, m = mapperPath name := by
    intro m hm
    obtain ⟨name, _, rfl⟩ := List.mem_map.1 hm
    exact ⟨name, rfl⟩
  have hl : ∀ p ∈ listedPartitions (L ++ "p".toList) out
        ++ (mapperMatches L w.mapperFiles).map mapperPath,
      (∃ k, p = partPath L k) ∨ ∃ name, p = mapperPath name := by
    intro p hp
    rcases List.mem_append.1 hp with h | h
    · exact Or.inl (hlisted p h)
    · exact Or.inr (hmapped p h)
  obtain ⟨hperm, parts, mappers, hsorted, hP, hM, hord⟩ := sortPartitions_mixed L hL _ hl
  rw [hsorted] at hperm
  have hmark_part : ∀ x, (∃ k, x = partPath L k) →
      HasPrefix x ("/dev/".toList ++ (L ++ "p".toList)) = true := by
    rintro x ⟨k, rfl⟩
    exact hasPrefix_partPath L k
  have hmark_mapper : ∀ x, (∃ name, x = mapperPath name) →
      HasPrefix x ("/dev/".toList ++ (L ++ "p".toList)) = false := by
    rintro x ⟨name, rfl⟩
    exact hasPrefix_mapperPath_dev L name hL
  obtain ⟨hpp, hmm⟩ := perm_of_marked
    (p := fun x => HasPrefix x ("/dev/".toList ++ (L ++ "p".toList))) hperm
    (fun x hx => hmark_part x (hP x hx)) (fun x hx => hmark_mapper x (hM x hx))
    (fun x hx => hmark_part x (hlisted x hx)) (fun x hx => hmark_mapper x (hmapped x hx))
  exact ⟨hact, parts, mappers, by rw [hstate, hsorted], hpp, hmm, hP, hM, hord⟩

/-- The `Run` at `/dev/loop7` with the partitions 1, 10 and 2 and the logical
volumes `swap` and `root` found in that order: the recorded list, and the
general statement applied to this run. -/
theorem Run_records_partitions_before_mapper_witness :
    (Run worldPartitions freshState).state.result
      = Value.strings ["/dev/loop7p1".toList, "/dev/loop7p2".toList, "/dev/loop7p10".toList,
          "/dev/mapper/ubuntu--vg-root".toList, "/dev/mapper/ubuntu--vg-swap".toList] ∧
    ((Run worldPartitions freshState).action = some StepAction.ActionContinue ∧
      ∃ parts mappers : List GoString,
        (Run worldPartitions freshState).state.result = Value.strings (parts ++ mappers) ∧
        parts.Perm (listedPartitions ("loop".toList ++ "7".toList ++ "p".toList)
          "loop7    loop\nloop7p1  part\nloop7p10 part\nloop7p2  part\n".toList) ∧
        mappers.Perm ((mapperMatches ("loop".toList ++ "7".toList)
          worldPartitions.mapperFiles).map mapperPath) ∧
        (∀ p ∈ parts, ∃ k, p = partPath ("loop".toList ++ "7".toList) k) ∧
        (∀ m ∈ mappers, ∃ name, m = mapperPath name) ∧
        mappers.Pairwise (fun a b => strLessEq a b = true)) :=
  ⟨by decide,
    Run_records_partitions_before_mapper worldPartitions freshState
      ("loop".toList ++ "7".toList) rfl (by decide) (sortsBeforeMapper_loop "7".toList)
      0 (by decide) "loop7    loop\nloop7p1  part\nloop7p10 part\nloop7p2  part\n".toList
      (fun j hj => absurd hj (Nat.not_lt_zero j)) rfl (by decide)⟩

/-- C2 as stated fails for a device name that sorts after `mapper`: with the
path `/dev/nvme0n1`, one partition and one logical volume, `Run` records the
device-mapper path before the partition path. -/
theorem Run_nvme_records_mapper_first :
    (Split (TrimSpace worldNvme.losetupOut) '/')[2]? = some "nvme0n1".toList ∧
    (Run worldNvme freshState).action = some StepAction.ActionContinue ∧
    (Run worldNvme freshState).state.result
      = Value.strings [mapperPath "ubuntu--vg-root".toList,
          partPath "nvme0n1".toList "1".toList] ∧
    sortPartitions "nvme0n1p".toList
        [partPath "nvme0n1".toList "1".toList, mapperPath "ubuntu--vg-root".toList]
      = [mapperPath "ubuntu--vg-root".toList, partPath "nvme0n1".toList "1".toList] :=
  ⟨by decide, by decide, by decide, by decide⟩

/-- C8: when `losetup` succeeded and every `lsblk` invocation succeeds, `Run`
lists the device until a listing shows a partition, at most 30 times. If
listing `i` is the first of the first 30 to show one, `Run` has made exactly
`i + 1` invocations `lsblk -ln -o NAME,TYPE <path>` and the list it sorts and
records is the partitions of that listing, `/dev/<NAME>` in the order of the
rows, followed by the matching device-mapper paths. If none of the first 30
listings shows a partition, `Run` has made exactly 30 invocations and no
partition is enumerated: it halts when no device-mapper name matches and
records the device-mapper paths alone otherwise. A row shows a partition when
it has exactly two fields, the first starts with `<loop>p` and the second is
`part` (`listedPartitions`). -/
theorem Run_enumerates_first_listing (w : World) (state : StateBag) (loop : GoString)
    (outs : Nat → GoString)
    (hok : w.losetupErr = none)
    (hloop : (Split (TrimSpace w.losetupOut) '/')[2]? = some loop)
    (hls : ∀ i, w.lsblk i = Except.ok (outs i)) :
    (∀ i, i < 30 → (∀ j, j < i → listedPartitions (loop ++ "p".toList) (outs j) = []) →
      listedPartitions (loop ++ "p".toList) (outs i) ≠ [] →
      (Run w state).action = some StepAction.ActionContinue ∧
      (Run w state).state.result
        = Value.strings (sortPartitions (loop ++ "p".toList)
            (listedPartitions (loop ++ "p".toList) (outs i)
              ++ (mapperMatches loop w.mapperFiles).map mapperPath)) ∧
      (Run w state).trace.filter isLsblkCall
        = List.replicate (i + 1) (lsblkCall (TrimSpace w.losetupOut))) ∧
    ((∀ i, i < 30 → listedPartitions (loop ++ "p".toList) (outs i) = []) →
      (Run w state).trace.filter isLsblkCall
        = List.replicate 30 (lsblkCall (TrimSpace w.losetupOut)) ∧
      (mapperMatches loop w.mapperFiles = [] →
        (Run w state).action = some StepAction.ActionHalt ∧ (Run w state).state = state) ∧
      (mapperMatches loop w.mapperFiles ≠ [] →
        (Run w state).action = some StepAction.ActionContinue ∧
        (Run w state).state.result
          = Value.strings (sortPartitions (loop ++ "p".toList)
              ((mapperMatches loop w.mapperFiles).map mapperPath)))) := by
  constructor
  · intro i hi hprev hcur
    obtain ⟨hact, hstate, hcalls⟩ := Run_of_listing w state loop hok hloop i hi (outs i)
      (fun j hj => ⟨outs j, hls j, hprev j hj⟩) (hls i) hcur
    exact ⟨hact, by rw [hstate], hcalls⟩
  · intro hnone
    obtain ⟨hgath, hcalls⟩ := Run_of_no_listing w state loop hok hloop
      (fun j hj => ⟨outs j, hls j, hnone j hj⟩)
    refine ⟨hcalls, ?_, ?_⟩
    · intro hm
      have hg : (gathered w loop).1 = [] := by rw [hgath, hm]; rfl
      obtain ⟨hact, hstate, _⟩ := Run_halt w state loop hok hloop hg
      exact ⟨hact, hstate⟩
    · intro hm
      have hg : (gathered w loop).1 ≠ [] := by
        rw [hgath]
        intro h
        exact hm (List.map_eq_nil_iff.1 h)
      obtain ⟨hact, hstate, _⟩ := Run_continue w state loop hok hloop hg
      exact ⟨hact, by rw [hstate, hgath]⟩

/-- The `Run` at `/dev/loop7` whose three partitions show up at the third
listing: three invocations of `lsblk`, the three partitions recorded, and the
general statement applied to this run. -/
theorem Run_enumerates_first_listing_witness :
    (Run worldSlowScan freshState).trace.filter isLsblkCall
      = List.replicate 3 (lsblkCall "/dev/loop7".toList) ∧
    (Run worldSlowScan freshState).state.result
      = Value.strings ["/dev/loop7p1".toList, "/dev/loop7p2".toList, "/dev/loop7p3".toList] ∧
    ((∀ i, i < 30 → (∀ j, j < i → listedPartitions ("loop7".toList ++ "p".toList)
        (slowListing j) = []) →
      listedPartitions ("loop7".toList ++ "p".toList) (slowListing i) ≠ [] →
      (Run worldSlowScan freshState).action = some StepAction.ActionContinue ∧
      (Run worldSlowScan freshState).state.result
        = Value.strings (sortPartitions ("loop7".toList ++ "p".toList)
            (listedPartitions ("loop7".toList ++ "p".toList) (slowListing i)
              ++ (mapperMatches "loop7".toList worldSlowScan.mapperFiles).map mapperPath)) ∧
      (Run worldSlowScan freshState).trace.filter isLsblkCall
        = List.replicate (i + 1) (lsblkCall (TrimSpace worldSlowScan.losetupOut))) ∧
    ((∀ i, i < 30 → listedPartitions ("loop7".toList ++ "p".toList) (slowListing i) = []) →
      (Run worldSlowScan freshState).trace.filter isLsblkCall
        = List.replicate 30 (lsblkCall (TrimSpace worldSlowScan.losetupOut)) ∧
      (mapperMatches "loop7".toList worldSlowScan.mapperFiles = [] →
        (Run worldSlowScan freshState).action = some StepAction.ActionHalt ∧
        (Run worldSlowScan freshState).state = freshState) ∧
      (mapperMatches "loop7".toList worldSlowScan.mapperFiles ≠ [] →
        (Run worldSlowScan freshState).action = some StepAction.ActionContinue ∧
        (Run worldSlowScan freshState).state.result
          = Value.strings (sortPartitions ("loop7".toList ++ "p".toList)
              ((mapperMatches "loop7".toList worldSlowScan.mapperFiles).map mapperPath))))) :=
  ⟨by decide, by decide,
    Run_enumerates_first_listing worldSlowScan freshState "loop7".toList slowListing rfl
      (by decide) (fun _ => rfl)⟩

/-- C3, the code at a failing input: `losetup` attached `/dev/loop7`, none of
the 30 listings shows a partition and `/dev/mapper/` holds nothing of the
device. `Run` reports the layout error and halts, and it hands no command at
all to `run`, so no `losetup -d /dev/loop7`: `Cleanup` is called while nothing
is recorded under `ResultKey`. -/
theorem Run_layout_failure_issues_no_detach :
    (Run worldNoLayout freshState).action = some StepAction.ActionHalt ∧
    ((Run worldNoLayout freshState).trace.filter isLsblkCall).length = 30 ∧
    (Run worldNoLayout freshState).trace.filter isUiError
      = [Event.uiError
          "No partitions or LVM volumes found. GPT or LVM layout may not be detected.".toList] ∧
    (Run worldNoLayout freshState).trace.filter isRunCommand = [] ∧
    (Run worldNoLayout freshState).state.result = Value.nil :=
  ⟨by decide, by decide, by decide, by decide, by decide⟩

/-- C4, the code at a failing input: `losetup` attached `/dev/loop7`, no
partition shows up and `/dev/mapper/` holds two logical volumes. `Run`
continues with a result made of the two device-mapper paths; `loopRe` finds no
`/dev/loop<N>` in the first of them and `Cleanup` issues no command. -/
theorem Cleanup_after_lvm_only_Run_issues_no_detach :
    (Run worldLvmOnly freshState).action = some StepAction.ActionContinue ∧
    (Run worldLvmOnly freshState).state.result
      = Value.strings ["/dev/mapper/ubuntu--vg-root".toList,
          "/dev/mapper/ubuntu--vg-swap".toList] ∧
    (Cleanup (Run worldLvmOnly freshState).state).2 = [] :=
  ⟨by decide, by decide, by decide⟩

/-- C6 as stated fails: after the successful `Run` at `/dev/loop7` with three
partitions, two calls of `Cleanup` in a row issue `losetup -d /dev/loop7`
twice. -/
theorem cleanupTwice_detaches_twice :
    (Run worldPartitions freshState).action = some StepAction.ActionContinue ∧
    (cleanupTwice (Run worldPartitions freshState).state).2
      = [Event.run "losetup -d /dev/loop7".toList, Event.run "losetup -d /dev/loop7".toList] ∧
    ((cleanupTwice (Run worldPartitions freshState).state).2.filter isDetach).length = 2 :=
  ⟨by decide, by decide, by decide⟩

/-- C6, as the code has it: `Cleanup` leaves the state bag as it is, so a
second call in a row repeats the first. After a successful `Run` on
`/dev/loop<N>` that enumerated a partition, each of the two calls issues
`losetup -d /dev/loop<N>`: the device removal is attempted twice. -/
theorem cleanupTwice_after_Run_detaches_twice (w : World) (state : StateBag) (N : GoString)
    (hN : IsDecimal N) (hok : w.losetupErr = none)
    (hpath : TrimSpace w.losetupOut = "/dev/loop".toList ++ N)
    (i : Nat) (hi : i < 30) (out : GoString)
    (hprev : ∀ j, j < i → ∃ o, w.lsblk j = Except.ok o ∧
      listedPartitions ("loop".toList ++ N ++ "p".toList) o = [])
    (hcur : w.lsblk i = Except.ok out)
    (hparts : listedPartitions ("loop".toList ++ N ++ "p".toList) out ≠ []) :
    (Run w state).action = some StepAction.ActionContinue ∧
    (Cleanup (Run w state).state).1 = (Run w state).state ∧
    (Cleanup (Run w state).state).2
      = [Event.run ("losetup -d ".toList ++ ("/dev/loop".toList ++ N))] ∧
    (cleanupTwice (Run w state).state).1 = (Run w state).state ∧
    (cleanupTwice (Run w state).state).2
      = [Event.run ("losetup -d ".toList ++ ("/dev/loop".toList ++ N)),
          Event.run ("losetup -d ".toList ++ ("/dev/loop".toList ++ N))] ∧
    ((cleanupTwice (Run w state).state).2.filter isDetach).length = 2 := by
  obtain ⟨hact, k, rest, hstate⟩ :=
    Run_head_partition w state N hN hok hpath i hi out hprev hcur hparts
  have hclean : (Cleanup (Run w state).state).2
      = [Event.run ("losetup -d ".toList ++ ("/dev/loop".toList ++ N))] := by
    rw [hstate]
    simp only [Cleanup, loopReFind_partPath N k hN, run]
  have htwice : (cleanupTwice (Run w state).state).2
      = [Event.run ("losetup -d ".toList ++ ("/dev/loop".toList ++ N)),
          Event.run ("losetup -d ".toList ++ ("/dev/loop".toList ++ N))] := by
    unfold cleanupTwice
    simp only [Cleanup_state, hclean]
    rfl
  have hdet : isDetach (Event.run ("losetup -d ".toList ++ ("/dev/loop".toList ++ N))) = true :=
    hasPrefix_append _ _
  refine ⟨hact, Cleanup_state _, hclean, ?_, htwice, ?_⟩
  · unfold cleanupTwice
    simp only [Cleanup_state]
  · rw [htwice]
    simp only [List.filter_cons, hdet, if_true, List.filter_nil, List.length_cons,
      List.length_nil]

/-- Two calls of `Cleanup` after the `Run` at `/dev/loop7` whose partitions show
up at the third listing: the general statement applied to this run. -/
theorem cleanupTwice_after_Run_detaches_twice_witness :
    (Run worldSlowScan freshState).action = some StepAction.ActionContinue ∧
    (Cleanup (Run worldSlowScan freshState).state).1 = (Run worldSlowScan freshState).state ∧
    (Cleanup (Run worldSlowScan freshState).state).2
      = [Event.run ("losetup -d ".toList ++ ("/dev/loop".toList ++ "7".toList))] ∧
    (cleanupTwice (Run worldSlowScan freshState).state).1
      = (Run worldSlowScan freshState).state ∧
    (cleanupTwice (Run worldSlowScan freshState).state).2
      = [Event.run ("losetup -d ".toList ++ ("/dev/loop".toList ++ "7".toList)),
          Event.run ("losetup -d ".toList ++ ("/dev/loop".toList ++ "7".toList))] ∧
    ((cleanupTwice (Run worldSlowScan freshState).state).2.filter isDetach).length = 2 :=
  cleanupTwice_after_Run_detaches_twice worldSlowScan freshState "7".toList
    ⟨by decide, by decide⟩ rfl (by decide) 2 (by decide) (slowListing 2)
    (fun j hj => ⟨slowListing j, rfl, by
      have hj2 : j = 0 ∨ j = 1 := by omega
      rcases hj2 with rfl | rfl <;> decide⟩)
    rfl (by decide)

/-- C7, the code at a failing input: `losetup` exits with status 0 and prints
`loop/7`, a text with a single `/`. `Run` neither continues nor halts: the index
`[2]` is out of range and the call panics, with no error reported and the state
bag as it was. -/
theorem Run_short_output_neither_continues_nor_halts :
    (Run worldShortOutput freshState).action ≠ some StepAction.ActionContinue ∧
    (Run worldShortOutput freshState).action ≠ some StepAction.ActionHalt ∧
    (Run worldShortOutput freshState).action = none ∧
    (Run worldShortOutput freshState).state = freshState :=
  ⟨by decide, by decide, by decide, by decide⟩

/-- C10, the code at a failing input: `losetup` exits with status 0 and prints
nothing. `strings.Split` returns one segment, the index `[2]` is out of range
and `Run` panics: it reports no error and does not halt. -/
theorem Run_empty_output_panics :
    Split (TrimSpace worldEmptyOutput.losetupOut) '/' = [[]] ∧
    (Run worldEmptyOutput freshState).action = none ∧
    (Run worldEmptyOutput freshState).trace.filter isUiError = [] :=
  ⟨by decide, by decide, by decide⟩

end AttachDetach

/-! ## The image opener -/

section Opener

open ImagePkg

/-- C9: for a zip file that opens and whose archive reads, `Open` returns an
`Image` only when the archive has exactly one entry, and the `SizeEstimate` of
that `Image` is the declared uncompressed size of the entry; with no entry or
with two or more, `Open` returns an error. A single entry that opens does give
an `Image`. -/
theorem Open_zip_one_entry (h : Host) (files : List ZipFile)
    (hzip : h.fileType = FileType.TypeZip) (hopen : h.openErr = none)
    (hstat : ∃ size, h.stat = Except.ok size)
    (hread : h.zipNewReader = Except.ok files) :
    (∀ img, (Open h).1 = Except.ok img →
      ∃ entry, files = [entry] ∧ img.SizeEstimate = entry.UncompressedSize64) ∧
    (files.length ≠ 1 → ∃ err, (Open h).1 = Except.error err) ∧
    (∀ entry, files = [entry] → entry.openErr = none →
      ∃ img, (Open h).1 = Except.ok img ∧ img.SizeEstimate = entry.UncompressedSize64) := by
  obtain ⟨size, hsize⟩ := hstat
  have hO : (Open h).1 = (openzip h).1 := by
    unfold Open
    rw [hopen, hzip]
  rw [hO]
  unfold openzip
  rw [hsize, hread]
  rcases files with _ | ⟨entry, _ | ⟨second, more⟩⟩
  · simp
  · cases ho : entry.openErr with
    | none => simp [ho, Image.SizeEstimate]
    | some err => simp [ho]
  · simp

/-- The opener at archives with one, no and two entries, and the general
statement applied to the archive with one entry. -/
theorem Open_zip_one_entry_witness :
    (Open (zipHost [diskEntry])).1
      = Except.ok (Image.multiCloser [Handle.zippedfileReader, Handle.file] 4096) ∧
    (Open (zipHost [])).1
      = Except.error "support for only zip files with one file.".toList ∧
    (Open (zipHost [diskEntry, diskEntry])).1
      = Except.error "support for only zip files with one file.".toList ∧
    ((∀ img, (Open (zipHost [diskEntry])).1 = Except.ok img →
      ∃ entry, [diskEntry] = [entry] ∧ img.SizeEstimate = entry.UncompressedSize64) ∧
    (([diskEntry] : List ZipFile).length ≠ 1 →
      ∃ err, (Open (zipHost [diskEntry])).1 = Except.error err) ∧
    (∀ entry, [diskEntry] = [entry] → entry.openErr = none →
      ∃ img, (Open (zipHost [diskEntry])).1 = Except.ok img ∧
        img.SizeEstimate = entry.UncompressedSize64)) :=
  ⟨rfl, rfl, rfl, Open_zip_one_entry (zipHost [diskEntry]) [diskEntry] rfl rfl ⟨1024, rfl⟩ rfl⟩

end Opener

/-! ## The outcomes of `Run` when the path has a third segment -/

section Outcomes

/-- When `losetup` succeeds and its trimmed output has a third segment `loop`,
`Run` either continues with a non-empty recorded list, a permutation of what it
gathered, or halts with the layout error reported and the state bag as it was;
it continues exactly when a partition was enumerated or a name of
`/dev/mapper/` matched. -/
theorem Run_outcome_of_path (w : World) (state : StateBag) (loop : GoString)
    (hok : w.losetupErr = none)
    (hloop : (Split (TrimSpace w.losetupOut) '/')[2]? = some loop) :
    (gathered w loop).1
      = (lsblkLoop w (TrimSpace w.losetupOut) (loop ++ "p".toList) 30 0 []).1
        ++ (mapperMatches loop w.mapperFiles).map mapperPath ∧
    ((gathered w loop).1 ≠ [] →
      (Run w state).action = some StepAction.ActionContinue ∧
      ∃ recorded, recorded ≠ [] ∧ recorded.Perm (gathered w loop).1 ∧
        (Run w state).state.result = Value.strings recorded) ∧
    ((gathered w loop).1 = [] →
      (Run w state).action = some StepAction.ActionHalt ∧
      (Run w state).state = state ∧
      Event.uiError
        "No partitions or LVM volumes found. GPT or LVM layout may not be detected.".toList
        ∈ (Run w state).trace) := by
  refine ⟨by rw [gathered_eq], ?_, ?_⟩
  · intro hg
    obtain ⟨hact, hstate, _⟩ := Run_continue w state loop hok hloop hg
    have hperm : (sortPartitions (loop ++ "p".toList) (gathered w loop).1).Perm
        (gathered w loop).1 := SliceStable_perm _ _
    refine ⟨hact, _, ?_, hperm, by rw [hstate]⟩
    intro hnil
    rw [hnil] at hperm
    exact hg (List.Perm.eq_nil (hperm.symm))
  · intro hg
    obtain ⟨hact, hstate, herr, _⟩ := Run_halt w state loop hok hloop hg
    exact ⟨hact, hstate, herr⟩

/-- When nothing is recorded under `ResultKey` and nothing was gathered, the
`Cleanup` call of the failing `Run` issues no device removal. -/
theorem Run_halt_fresh_no_detach (w : World) (state : StateBag) (loop : GoString)
    (hok : w.losetupErr = none)
    (hloop : (Split (TrimSpace w.losetupOut) '/')[2]? = some loop)
    (hg : (gathered w loop).1 = []) (hfresh : state.result = Value.nil) :
    (Run w state).action = some StepAction.ActionHalt ∧
    (Run w state).trace.filter isDetach = [] := by
  obtain ⟨hact, _, _, hdet⟩ := Run_halt w state loop hok hloop hg
  refine ⟨hact, ?_⟩
  rw [hdet, Cleanup_nil state hfresh]
  rfl

end Outcomes

end ArmImage
